import Mathlib

/-!
Verification development for the my-biggie fault-injection HTTP service.

The Go source is shallowly embedded: pure helpers become Lean functions,
`math/rand` draws become explicit oracle streams (`rng : Nat → Nat` for
`rand.Intn`, `frng : Nat → ℚ` for `rand.Float64`, so a theorem quantified
over the stream covers every possible draw sequence), Go `error` returns
become `Except String`, and `float64` arithmetic is carried out in `ℚ`
(exact; the concrete values exercised below are exactly representable).
-/

/-! ### Go string primitives (strings / strconv packages) -/

/-- Whitespace set of `strings.TrimSpace` (ASCII part of `unicode.IsSpace`;
the non-ASCII space runes never occur in this development). -/
def isGoSpace (c : Char) : Bool :=
  c = ' ' || c = '\t' || c = '\n' || c = '\r' || c = '\x0b' || c = '\x0c'

/-- `strings.TrimSpace` on a character list. -/
def trimSpaceL (s : List Char) : List Char :=
  ((s.dropWhile isGoSpace).reverse.dropWhile isGoSpace).reverse

/-- `strings.TrimSpace`. -/
def trimSpace (s : String) : String :=
  String.mk (trimSpaceL s.data)

/-- Whether `p` is a leading pattern of `s` (chars of `p` open `s`);
models `strings.HasPrefix s p`. -/
def goStartsWithL : List Char → List Char → Bool
  | _, [] => true
  | [], _ :: _ => false
  | c :: s, p :: ps => c = p && goStartsWithL s ps

/-- `strings.HasPrefix` on `String`. -/
def goStartsWith (s p : String) : Bool :=
  goStartsWithL s.data p.data

/-- `strings.Split(s, sep)` for a single separator character: the list of
(possibly empty) fields between occurrences of `sep`. -/
def goSplitCharL (sep : Char) : List Char → List (List Char)
  | [] => [[]]
  | c :: rest =>
    match goSplitCharL sep rest with
    | [] => if c = sep then [[], []] else [[c]]
    | h :: t => if c = sep then [] :: h :: t else (c :: h) :: t

/-- `strings.Split(s, ":")`. -/
def goSplitColon (s : String) : List String :=
  (goSplitCharL ':' s.data).map String.mk

/-- ASCII decimal digit test. -/
def isDigitChar (c : Char) : Bool := '0' ≤ c && c ≤ '9'

/-- Value of a run of decimal digits. -/
def digitsVal (ds : List Char) : ℕ :=
  ds.foldl (fun acc c => acc * 10 + (c.toNat - 48)) 0

/-- Digit phase of `strconv.Atoi`: a nonempty all-digit run with the int64
range check. Error strings follow Go's `invalid syntax` / `value out of
range` sentinels. -/
def goAtoiDigits (neg : Bool) (ds : List Char) : Except String Int :=
  if ds.isEmpty then Except.error ("strconv.Atoi: invalid syntax")
  else if ds.all isDigitChar then
    let v : Int := if neg then -(digitsVal ds : Int) else (digitsVal ds : Int)
    if v < -(2 ^ 63) || v > 2 ^ 63 - 1 then
      Except.error ("strconv.Atoi: value out of range")
    else Except.ok v
  else Except.error ("strconv.Atoi: invalid syntax")

/-- `strconv.Atoi` on a character list: optional leading sign, then digits. -/
def goAtoiL (l : List Char) : Except String Int :=
  match l with
  | [] => Except.error ("strconv.Atoi: invalid syntax")
  | c :: t =>
    if c = '-' then goAtoiDigits true t
    else if c = '+' then goAtoiDigits false t
    else goAtoiDigits false (c :: t)

/-- `strconv.Atoi` (64-bit int). -/
def goAtoi (s : String) : Except String Int := goAtoiL s.data

/-- ASCII `strings.ToLower` (all strings lowered in this program are ASCII). -/
def goToLower (s : String) : String :=
  String.mk (s.data.map fun c => if 'A' ≤ c && c ≤ 'Z' then Char.ofNat (c.toNat + 32) else c)

/-- ASCII `strings.ToUpper`. -/
def goToUpper (s : String) : String :=
  String.mk (s.data.map fun c => if 'a' ≤ c && c ≤ 'z' then Char.ofNat (c.toNat - 32) else c)

/-! ### math/rand oracle model -/

/-- `rand.Intn n` at position `i` of the draw stream `rng`: panics (modelled
as an error) when `n ≤ 0`, otherwise some value in `[0, n)`; quantifying
over `rng` covers every possible draw. -/
def goIntn (rng : ℕ → ℕ) (i : ℕ) (n : Int) : Except String Int :=
  if n ≤ 0 then Except.error ("panic: invalid argument to Intn")
  else Except.ok ((rng i % n.toNat : ℕ) : Int)

/-! ### DuckValue resolver (processRandomInt / processRandomValue / DuckInt / DuckFloat) -/

/-- `processRandomInt` from the source: `RANDOM` draws from the caller-supplied
default range, `RANDOM:<a>:<b>` draws from `[a, b)` after validation, and any
other string is parsed directly as an integer. -/
def processRandomInt (value0 : String) (defaultStart defaultEnd : Int)
    (rng : ℕ → ℕ) : Except String Int :=
  let value := trimSpace value0
  if value = "RANDOM" then
    match goIntn rng 0 (defaultEnd - defaultStart) with
    | Except.error e => Except.error e
    | Except.ok r => Except.ok (r + defaultStart)
  else if goStartsWith value ("RANDOM:") then
    match goSplitColon value with
    | [_, p1, p2] =>
      match goAtoi p1 with
      | Except.error e => Except.error e
      | Except.ok start =>
        match goAtoi p2 with
        | Except.error e => Except.error e
        | Except.ok e =>
          if start ≥ e then
            Except.error ("invalid RANDOM range for integer: start must be less than end")
          else
            match goIntn rng 0 (e - start) with
            | Except.error e => Except.error e
            | Except.ok r => Except.ok (r + start)
    | _ => Except.error ("invalid RANDOM syntax for integer")
  else goAtoi value

/-- Result type of `processRandomValue` (Go `interface\x7b\x7d`: an int or a string). -/
inductive RVal where
  | rint (n : Int)
  | rstr (s : String)
deriving DecidableEq, Repr

/-- `processRandomValue` from the source: bare `RANDOM` yields the random
string token `randomValue-<n>` with `n` drawn from `[0, 10000)`;
`RANDOM:<a>:<b>` yields a random integer in `[a, b)`; anything else is
returned unchanged as a string. -/
def processRandomValue (value : String) (rng : ℕ → ℕ) : Except String RVal :=
  if value = "RANDOM" then
    match goIntn rng 0 10000 with
    | Except.error e => Except.error e
    | Except.ok r => Except.ok (RVal.rstr ("randomValue-" ++ toString r))
  else if goStartsWith value ("RANDOM:") then
    match goSplitColon value with
    | [_, p1, p2] =>
      match goAtoi p1 with
      | Except.error e => Except.error e
      | Except.ok start =>
        match goAtoi p2 with
        | Except.error e => Except.error e
        | Except.ok e =>
          if start ≥ e then
            Except.error ("invalid RANDOM range: start must be less than end")
          else
            match goIntn rng 0 (e - start) with
            | Except.error e => Except.error e
            | Except.ok r => Except.ok (RVal.rint (r + start))
    | _ => Except.error ("invalid RANDOM syntax")
  else Except.ok (RVal.rstr value)

/-- A JSON scalar as handed to an `UnmarshalJSON` method. `jnum` carries the
numeric value exactly as a rational; an integer-form JSON number literal is a
`jnum` with denominator 1. -/
inductive JVal where
  | jnum (q : ℚ)
  | jstr (s : String)
  | jother
deriving DecidableEq

/-- `strconv.ParseFloat` restricted to the decimal forms this program can
feed it: optional sign, digits with an optional fraction, an optional decimal
exponent. The value is kept exact in `ℚ`. (`inf` / `nan` / hex floats never
occur in this program and are treated as syntax errors.) -/
def goParseFloat (s : String) : Except String ℚ :=
  let core : Bool × List Char :=
    match s.data with
    | '-' :: t => (true, t)
    | '+' :: t => (false, t)
    | t => (false, t)
  let neg := core.1
  let rest := core.2
  let intPart := rest.takeWhile isDigitChar
  let rest1 := rest.dropWhile isDigitChar
  let fracRes : Option (List Char × List Char) :=
    match rest1 with
    | '.' :: t => some (t.takeWhile isDigitChar, t.dropWhile isDigitChar)
    | t => some ([], t)
  match fracRes with
  | none => Except.error ("strconv.ParseFloat: invalid syntax")
  | some (fracPart, rest2) =>
    if intPart.isEmpty && fracPart.isEmpty then
      Except.error ("strconv.ParseFloat: invalid syntax")
    else
      let mantissa : ℚ :=
        (digitsVal intPart : ℚ) + (digitsVal fracPart : ℚ) / ((10 : ℚ) ^ fracPart.length)
      let expRes : Option Int :=
        match rest2 with
        | [] => some 0
        | 'e' :: t =>
          match t with
          | '-' :: ds => if ds ≠ [] && ds.all isDigitChar then some (-(digitsVal ds : Int)) else none
          | '+' :: ds => if ds ≠ [] && ds.all isDigitChar then some (digitsVal ds : Int) else none
          | ds => if ds ≠ [] && ds.all isDigitChar then some (digitsVal ds : Int) else none
        | 'E' :: t =>
          match t with
          | '-' :: ds => if ds ≠ [] && ds.all isDigitChar then some (-(digitsVal ds : Int)) else none
          | '+' :: ds => if ds ≠ [] && ds.all isDigitChar then some (digitsVal ds : Int) else none
          | ds => if ds ≠ [] && ds.all isDigitChar then some (digitsVal ds : Int) else none
        | _ => none
      match expRes with
      | none => Except.error ("strconv.ParseFloat: invalid syntax")
      | some ex =>
        let v := mantissa * (10 : ℚ) ^ ex
        Except.ok (if neg then -v else v)

/-- `DuckInt.UnmarshalJSON`: first try the value as a (64-bit, integral) JSON
number; otherwise it must be a string, which is trimmed and routed through
`processRandomValue`, whose int result is taken directly and whose string
result is parsed with `strconv.Atoi`. -/
def duckIntUnmarshalJSON (b : JVal) (rng : ℕ → ℕ) : Except String Int :=
  match b with
  | JVal.jnum q =>
    if q.den = 1 && -(2 ^ 63) ≤ q.num && q.num ≤ 2 ^ 63 - 1 then Except.ok q.num
    else Except.error ("json: cannot unmarshal number into Go value of type int")
  | JVal.jother => Except.error ("json: cannot unmarshal value into Go value of type string")
  | JVal.jstr s0 =>
    let s := trimSpace s0
    match processRandomValue s rng with
    | Except.error e => Except.error e
    | Except.ok (RVal.rint n) => Except.ok n
    | Except.ok (RVal.rstr v) => goAtoi v

/-- `DuckFloat.UnmarshalJSON`: a JSON number is taken verbatim; a string is
trimmed, `RANDOM` yields `rand.Float64()` (oracle `frng 0`), `RANDOM:<a>:<b>`
validates the float range and yields `start + Float64()*(end-start)`, and any
other string is parsed with `strconv.ParseFloat`. -/
def duckFloatUnmarshalJSON (b : JVal) (frng : ℕ → ℚ) : Except String ℚ :=
  match b with
  | JVal.jnum q => Except.ok q
  | JVal.jother => Except.error ("json: cannot unmarshal value into Go value of type string")
  | JVal.jstr s0 =>
    let s := trimSpace s0
    if s = "RANDOM" then Except.ok (frng 0)
    else if goStartsWith s ("RANDOM:") then
      match goSplitColon s with
      | [_, p1, p2] =>
        match goParseFloat p1 with
        | Except.error e => Except.error e
        | Except.ok start =>
          match goParseFloat p2 with
          | Except.error e => Except.error e
          | Except.ok e =>
            if start ≥ e then Except.error ("invalid RANDOM range for DuckFloat")
            else Except.ok (start + frng 0 * (e - start))
      | _ => Except.error ("invalid RANDOM syntax for DuckFloat")
    else goParseFloat s

/-! ### MySQL stress handler, request-decode phase (mysql_stress.go) -/

/-- Raw JSON body of POST /mysql/heavy: each field is absent or a JSON
scalar (`encoding/json` leaves absent fields at their zero value). -/
structure MySQLHeavyRawPayload where
  reads : Option Bool := none
  writes : Option Bool := none
  maintainSecondRaw : Option JVal := none
  async : Option Bool := none
  queryPerIntervalRaw : Option JVal := none
  intervalSecondRaw : Option JVal := none

/-- Decoded MySQLHeavyPayload. -/
structure MySQLHeavyPayload where
  reads : Bool
  writes : Bool
  maintainSecond : Int
  async : Bool
  queryPerInterval : Int
  intervalSecond : Int
deriving DecidableEq

/-- Decode one DuckInt field: absent fields stay 0, present fields go through
`DuckInt.UnmarshalJSON`. -/
def bindDuckInt (v : Option JVal) (rng : ℕ → ℕ) : Except String Int :=
  match v with
  | none => Except.ok 0
  | some j => duckIntUnmarshalJSON j rng

/-- `c.ShouldBindJSON(&payload)` for MySQLHeavyPayload: every DuckInt field is
decoded (each with its own slice of the draw oracle); the first failing field
aborts the bind with its error. -/
def mysqlHeavyBind (raw : MySQLHeavyRawPayload) (rng : ℕ → ℕ → ℕ) :
    Except String MySQLHeavyPayload :=
  match bindDuckInt raw.maintainSecondRaw (rng 0) with
  | Except.error e => Except.error e
  | Except.ok m =>
    match bindDuckInt raw.queryPerIntervalRaw (rng 1) with
    | Except.error e => Except.error e
    | Except.ok q =>
      match bindDuckInt raw.intervalSecondRaw (rng 2) with
      | Except.error e => Except.error e
      | Except.ok i =>
        Except.ok ⟨raw.reads.getD false, raw.writes.getD false, m,
          raw.async.getD false, q, i⟩

/-- Outcome of the validation phase of a stress handler: an immediate JSON
error response (no job is started), or the handler proceeds with the decoded
payload toward config lookup and job start. -/
inductive HandlerPhase where
  | errorResp (status : ℕ) (errCode : String) (message : String)
  | proceed (p : MySQLHeavyPayload)
deriving DecidableEq

/-- `ErrorJSON` upper-cases the error code and lower-cases the message. -/
def errorJSONCode (errorType : String) : String := goToUpper errorType

/-- Validation phase of `MySQLHeavyHandler`: a bind failure is surfaced at
once as HTTP 400 with code INVALID_PAYLOAD (via `ErrorJSON`), before any job
is built or started. -/
def mysqlHeavyHandlerPhase1 (raw : MySQLHeavyRawPayload) (rng : ℕ → ℕ → ℕ) :
    HandlerPhase :=
  match mysqlHeavyBind raw rng with
  | Except.error e => HandlerPhase.errorResp 400 (errorJSONCode ("INVALID_PAYLOAD")) (goToLower e)
  | Except.ok p => HandlerPhase.proceed p

/-! ### Log template engine (logger_middleware.go) -/

/-- A wall-clock instant as consumed by the time placeholder (the code always
formats `time.Now().UTC()`, so no zone offset is carried). -/
structure GoTime where
  year : ℕ
  month : ℕ
  day : ℕ
  hour : ℕ
  minute : ℕ
  second : ℕ
deriving DecidableEq

/-- Two-digit zero padding (Go layout chunks 01, 02, 15, 04, 05). -/
def pad2 (n : ℕ) : String := if n < 10 then "0" ++ toString n else toString n

/-- Four-digit zero padding (Go layout chunk 2006). -/
def pad4 (n : ℕ) : String :=
  if n < 10 then "000" ++ toString n
  else if n < 100 then "00" ++ toString n
  else if n < 1000 then "0" ++ toString n
  else toString n

/-- `time.Time.Format` restricted to the layout chunks reachable in this
program (the six numeric chunks produced by `convertTimeFormat` plus the
UTC-zone chunk of RFC3339); any other character passes through verbatim. -/
def goTimeFormatL (t : GoTime) : List Char → List Char
  | '2' :: '0' :: '0' :: '6' :: r => (pad4 t.year).data ++ goTimeFormatL t r
  | '0' :: '1' :: r => (pad2 t.month).data ++ goTimeFormatL t r
  | '0' :: '2' :: r => (pad2 t.day).data ++ goTimeFormatL t r
  | '0' :: '4' :: r => (pad2 t.minute).data ++ goTimeFormatL t r
  | '0' :: '5' :: r => (pad2 t.second).data ++ goTimeFormatL t r
  | '1' :: '5' :: r => (pad2 t.hour).data ++ goTimeFormatL t r
  | 'Z' :: '0' :: '7' :: ':' :: '0' :: '0' :: r => 'Z' :: goTimeFormatL t r
  | c :: r => c :: goTimeFormatL t r
  | [] => []

/-- `time.Time.Format` on strings. -/
def goTimeFormat (t : GoTime) (layout : String) : String :=
  String.mk (goTimeFormatL t layout.data)

/-- The `time.RFC3339` layout constant. -/
def rfc3339Layout : String := "2006-01-02T15:04:05Z07:00"

/-- `strings.ReplaceAll` for a two-character pattern (left-to-right,
non-overlapping), the shape of every `convertTimeFormat` replacement. -/
def replaceTok (a b : Char) (r : List Char) : List Char → List Char
  | [] => []
  | [c] => [c]
  | c :: d :: rest =>
    if c = a && d = b then r ++ replaceTok a b r rest
    else c :: replaceTok a b r (d :: rest)
termination_by l => l.length

/-- `convertTimeFormat`: the six strftime tokens are replaced by Go layout
chunks. (The source iterates a Go map, whose order is unspecified; the six
replacements act on disjoint patterns and produce no `%`, so every order
yields the same string — a fixed order is used here.) -/
def convertTimeFormat (format : String) : String :=
  String.mk
    (replaceTok '%' 'S' ("05").data
      (replaceTok '%' 'M' ("04").data
        (replaceTok '%' 'H' ("15").data
          (replaceTok '%' 'd' ("02").data
            (replaceTok '%' 'm' ("01").data
              (replaceTok '%' 'Y' ("2006").data format.data))))))

/-- Factor `p` out of `n` (fuel-bounded, structurally recursive so concrete
instances reduce in the kernel): returns `(k, m)` with `n = p^k * m`. -/
def factorOutAux (p : ℕ) : ℕ → ℕ → ℕ × ℕ
  | 0, n => (0, n)
  | fuel + 1, n =>
    if 2 ≤ p ∧ 0 < n ∧ n % p = 0 then
      let r := factorOutAux p fuel (n / p)
      (r.1 + 1, r.2)
    else (0, n)

/-- Factor `p` out of `n` completely. -/
def factorOut (p n : ℕ) : ℕ × ℕ := factorOutAux p n n

/-- Remove trailing decimal zeros: returns `(m, removed)`. -/
def rmZeros10 : ℕ → ℕ → ℕ × ℕ
  | 0, n => (n, 0)
  | fuel + 1, n =>
    if n % 10 = 0 ∧ 0 < n then
      let r := rmZeros10 fuel (n / 10)
      (r.1, r.2 + 1)
    else (n, 0)

/-- Exponent field of Go's %e form: at least two digits. -/
def padExp (e : ℕ) : String := if e < 10 then "0" ++ toString e else toString e

/-- `fmt.Sprintf` %g (shortest form, float64) for values whose exact decimal
expansion terminates with at most 15 significant digits: there the shortest
round-trip digit string equals the exact digit string, and Go switches to
the %e form when the decimal exponent is below -4 or at least 6. Every
value this program formats (an int64 divided by powers of 1000 or 1024) is
of that shape. A non-terminating rational (unreachable here) falls back to
a fraction rendering. -/
def goFormatG (q : ℚ) : String :=
  if q = 0 then "0"
  else
    let sign : String := if q < 0 then "-" else ""
    let aq : ℚ := |q|
    let f2 := factorOut 2 aq.den
    let f5 := factorOut 5 f2.2
    if f5.2 ≠ 1 then sign ++ toString aq.num ++ "/" ++ toString aq.den
    else
      let k := max f2.1 f5.1
      let n : ℕ := (aq * (10 : ℚ) ^ k).num.toNat
      let r := rmZeros10 n n
      let m := r.1
      let kk : Int := (k : Int) - (r.2 : Int)
      let ds := (toString m).data
      let ex : Int := (ds.length : Int) - 1 - kk
      if ex < -4 || ex ≥ 6 then
        let tail := ds.drop 1
        sign ++ String.mk (ds.take 1)
          ++ (if tail.isEmpty then "" else "." ++ String.mk tail)
          ++ "e" ++ (if ex < 0 then "-" else "+") ++ padExp ex.natAbs
      else if kk ≤ 0 then
        sign ++ String.mk ds ++ String.mk (List.replicate kk.natAbs '0')
      else if (kk : Int) < (ds.length : Int) then
        sign ++ String.mk (ds.take (ds.length - kk.toNat)) ++ "." ++
          String.mk (ds.drop (ds.length - kk.toNat))
      else
        sign ++ "0." ++ String.mk (List.replicate (kk.toNat - ds.length) '0') ++ String.mk ds

/-- The per-request data `resolvePlaceholder` reads from the Gin context
(`latency` is passed separately, as in the source, in nanoseconds). -/
structure LogContext where
  now : GoTime
  status : Int
  method : String
  path : String
  clientIP : String
  userAgent : String
  protocol : String
  requestSize : Int
  responseSize : Int

/-- `strings.SplitN(content, ":", 2)`: the part before the first colon, and
the remainder when a colon exists. -/
def breakAtColon : List Char → List Char × Option (List Char)
  | [] => ([], none)
  | c :: t =>
    if c = ':' then ([], some t)
    else
      let r := breakAtColon t
      (c :: r.1, r.2)

/-- The latency case of `resolvePlaceholder`: explicit unit specifiers s,
ms, mcs, ns, otherwise auto-scaling to the largest unit of magnitude at
least one. -/
def resolveLatency (unitSpec : String) (latency : Int) : String :=
  let lu := goToLower unitSpec
  if lu = "ns" then goFormatG ((latency : ℚ))
  else if lu = "mcs" then goFormatG ((latency : ℚ) / 1000)
  else if lu = "ms" then goFormatG ((latency : ℚ) / 1000 / 1000)
  else if lu = "s" then goFormatG ((latency : ℚ) / 1000 / 1000 / 1000)
  else
    let ns : ℚ := (latency : ℚ)
    if ns ≥ 1000 * 1000 * 1000 then goFormatG (ns / 1000 / 1000 / 1000) ++ "s"
    else if ns ≥ 1000 * 1000 then goFormatG (ns / 1000 / 1000) ++ "ms"
    else if ns ≥ 1000 then goFormatG (ns / 1000) ++ "μs"
    else goFormatG ns ++ "ns"

/-- The request_size / response_size case of `resolvePlaceholder`: explicit
unit specifiers kb, mb, gb, otherwise auto-scaling with a binary-unit label
(plain bytes below 1024). -/
def resolveSize (unitSpec : String) (size : Int) : String :=
  let lu := goToLower unitSpec
  if lu = "kb" then goFormatG ((size : ℚ) / 1024)
  else if lu = "mb" then goFormatG ((size : ℚ) / (1024 * 1024))
  else if lu = "gb" then goFormatG ((size : ℚ) / (1024 * 1024 * 1024))
  else
    if size ≥ 1024 * 1024 * 1024 then goFormatG ((size : ℚ) / (1024 * 1024 * 1024)) ++ "GB"
    else if size ≥ 1024 * 1024 then goFormatG ((size : ℚ) / (1024 * 1024)) ++ "MB"
    else if size ≥ 1024 then goFormatG ((size : ℚ) / 1024) ++ "KB"
    else toString size ++ "B"

/-- The time case of `resolvePlaceholder`: a nonempty unit specifier is a
strftime-like pattern run through `convertTimeFormat`; otherwise RFC3339. -/
def resolveTimeVal (t : GoTime) (unitSpec : String) : String :=
  if unitSpec ≠ "" then goTimeFormat t (convertTimeFormat unitSpec)
  else goTimeFormat t rfc3339Layout

/-- `resolvePlaceholder` from logger_middleware.go: split the placeholder
content on the first colon into a case-insensitive key and an optional unit
specifier, then dispatch. -/
def resolvePlaceholder (content : String) (c : LogContext) (latency : Int) :
    Except String String :=
  let br := breakAtColon content.data
  let key := goToLower (trimSpace (String.mk br.1))
  let unitSpec : String :=
    match br.2 with
    | none => ""
    | some u => trimSpace (String.mk u)
  if key = "time" then Except.ok (resolveTimeVal c.now unitSpec)
  else if key = "status_code" then Except.ok (toString c.status)
  else if key = "method" then Except.ok c.method
  else if key = "path" then Except.ok c.path
  else if key = "client_ip" then Except.ok c.clientIP
  else if key = "latency" then Except.ok (resolveLatency unitSpec latency)
  else if key = "user_agent" then Except.ok c.userAgent
  else if key = "protocol" then Except.ok c.protocol
  else if key = "request_size" then Except.ok (resolveSize unitSpec c.requestSize)
  else if key = "response_size" then Except.ok (resolveSize unitSpec c.responseSize)
  else Except.error ("unsupported placeholder: " ++ key)

/-- A parsed piece of a log format: a literal run or the inner content of a
placeholder match. -/
inductive LogSeg where
  | lit (s : List Char)
  | ph (content : List Char)
deriving DecidableEq

/-- The two brace characters trimmed by `strings.Trim(match, ...)`. -/
def isBraceChar (c : Char) : Bool := c = '\x7b' || c = '\x7d'

/-- `strings.Trim(s, ...)` for the brace cut-set: drop leading and trailing
brace characters. (The source trims the whole regex match `\x7bcontent\x7d`;
the scanner below already strips the outer pair, and end-trimming the match
equals end-trimming the inner content.) -/
def trimBraces (l : List Char) : List Char :=
  ((l.dropWhile isBraceChar).reverse.dropWhile isBraceChar).reverse

/-- One-pass scanner equivalent to the leftmost non-overlapping matches of
the placeholder regex (an opening brace, one or more non-closing-brace
characters, a closing brace): while collecting after an opening brace,
a closing brace with nonempty content emits a placeholder; an immediate
closing brace or end of input abandons the attempt and the characters stay
literal, exactly as the regex leaves them unmatched. -/
def scanSegsAux : Option (List Char) → List Char → List LogSeg
  | none, [] => []
  | some acc, [] => [LogSeg.lit ('\x7b' :: acc.reverse)]
  | none, c :: t =>
    if c = '\x7b' then scanSegsAux (some []) t
    else LogSeg.lit [c] :: scanSegsAux none t
  | some acc, c :: t =>
    if c = '\x7d' then
      if acc.isEmpty then LogSeg.lit ['\x7b'] :: LogSeg.lit ['\x7d'] :: scanSegsAux none t
      else LogSeg.ph acc.reverse :: scanSegsAux none t
    else scanSegsAux (some (c :: acc)) t

/-- All matches of the placeholder regex, with the literal gaps. -/
def scanSegs (l : List Char) : List LogSeg := scanSegsAux none l

/-- Rendering of one segment inside `FormatLogMessage`: a literal passes
through; a placeholder is brace-trimmed and resolved, a resolution error
becoming the fixed ERR marker. -/
def renderSeg (c : LogContext) (latency : Int) : LogSeg → List Char
  | LogSeg.lit s => s
  | LogSeg.ph content =>
    match resolvePlaceholder (String.mk (trimBraces content)) c latency with
    | Except.error _ => ('E' :: 'R' :: 'R' :: [])
    | Except.ok v => v.data

/-- `FormatLogMessage`: replace every placeholder match of the format in
place, leaving all other text untouched. -/
def FormatLogMessage (format : String) (c : LogContext) (latency : Int) : String :=
  String.mk (((scanSegs format.data).map (renderSeg c latency)).flatten)

/-- The key a placeholder content dispatches on: the part before the first
colon, trimmed, lower-cased. -/
def placeholderKey (content : String) : String :=
  goToLower (trimSpace (String.mk (breakAtColon content.data).1))

/-- The closed set of keys `resolvePlaceholder` accepts. -/
def supportedLogKeys : List String :=
  ["time", "status_code", "method", "path", "client_ip", "latency",
   "user_agent", "protocol", "request_size", "response_size"]

/-- The placeholder keys of a character list, in order of appearance. -/
def extractKeysL (l : List Char) : List String :=
  (scanSegsAux none l).filterMap fun seg =>
    match seg with
    | LogSeg.ph content => some (placeholderKey (String.mk (trimBraces content)))
    | LogSeg.lit _ => none

/-- The placeholder keys of a format string, in order of appearance. -/
def extractKeys (format : String) : List String := extractKeysL format.data

/-- A fixed request context for concrete instantiations. -/
def sampleLogContext : LogContext :=
  ⟨⟨2026, 1, 2, 3, 4, 5⟩, 200, "GET", "/", "127.0.0.1", "agent", "HTTP/1.1", 0, 0⟩

/-- `goFormatG` specialized to a natural number input (denominator one,
no sign): the shape every value in the C3 computation reduces to. -/
def goFormatGNat (n : ℕ) : String :=
  let r := rmZeros10 n n
  let m := r.1
  let kk : Int := ((0 : ℕ) : Int) - (r.2 : Int)
  let ds := (toString m).data
  let ex : Int := (ds.length : Int) - 1 - kk
  if ex < -4 || ex ≥ 6 then
    let tail := ds.drop 1
    ("" : String) ++ String.mk (ds.take 1)
      ++ (if tail.isEmpty then "" else "." ++ String.mk tail)
      ++ "e" ++ (if ex < 0 then "-" else "+") ++ padExp ex.natAbs
  else if kk ≤ 0 then
    ("" : String) ++ String.mk ds ++ String.mk (List.replicate kk.natAbs '0')
  else if (kk : Int) < (ds.length : Int) then
    ("" : String) ++ String.mk (ds.take (ds.length - kk.toNat)) ++ "." ++
      String.mk (ds.drop (ds.length - kk.toNat))
  else
    ("" : String) ++ "0." ++ String.mk (List.replicate (kk.toNat - ds.length) '0') ++ String.mk ds

/-! ### Network stress simulation (network_stress.go, main.go) -/

/-- The shared packet-loss / latency simulation state guarded by
`networkStressMutex`. Wall-clock instants are modelled as integers. -/
structure NetworkStressState where
  activeLatencyMs : Int
  latencyExpiry : Int
  activePacketLoss : Int
  packetLossExpiry : Int
deriving DecidableEq

/-- Observable behaviour of `NetworkStressMiddleware` on one request: the
artificial delay applied, the abort response if the request was dropped, and
how many percentage rolls were drawn. -/
structure MiddlewareOutcome where
  sleptMs : Int
  aborted : Option (ℕ × String × String)
  rollsUsed : ℕ
deriving DecidableEq

/-- `NetworkStressMiddleware` from main.go: read the state once, apply the
latency delay when active and unexpired, then — when packet loss is active
and unexpired — draw exactly one roll in `[0, 100)` and drop the request
with 503 when the roll is below the loss percentage. -/
def NetworkStressMiddleware (st : NetworkStressState) (now : Int) (rng : ℕ → ℕ) :
    MiddlewareOutcome :=
  let slept := if now < st.latencyExpiry ∧ st.activeLatencyMs > 0 then st.activeLatencyMs else 0
  if now < st.packetLossExpiry ∧ st.activePacketLoss > 0 then
    let roll : Int := ((rng 0 % 100 : ℕ) : Int)
    if roll < st.activePacketLoss then
      ⟨slept, some (503, "SERVICE_UNAVAILABLE", "simulated packet loss, request dropped"), 1⟩
    else ⟨slept, none, 1⟩
  else ⟨slept, none, 0⟩

/-- The arming phase of `PacketLossHandler`: set the loss percentage and the
expiry `now + maintain` (the handler later sleeps out the window and resets
the percentage to zero; the expiry check alone already ends the window). -/
def setPacketLoss (st : NetworkStressState) (lossPercentage maintainSec now : Int) :
    NetworkStressState :=
  { st with activePacketLoss := lossPercentage,
            packetLossExpiry := now + maintainSec }

/-! ### Downtime interceptor (concurrency_ddos.go, main.go) -/

/-- The process-wide downtime flag guarded by `downtimeMutex`. -/
structure DowntimeState where
  downtimeActive : Bool
deriving DecidableEq

/-- A JSON response as far as the downtime claims observe it. -/
structure HttpResponse where
  status : ℕ
  errCode : String
  message : String
deriving DecidableEq

/-- The fixed 503 payload of `DowntimeMiddleware`. -/
def serviceDownResponse : HttpResponse :=
  ⟨503, "SERVICE_DOWN", "Service is temporarily unavailable"⟩

/-- `DowntimeMiddleware`: abort every request with the fixed 503 payload
while the flag is armed; otherwise hand the request to the rest of the
chain (`c.Next()`), which may read and write the downtime state. -/
def DowntimeMiddleware (st : DowntimeState)
    (next : DowntimeState → HttpResponse × DowntimeState) :
    HttpResponse × DowntimeState :=
  if st.downtimeActive then (serviceDownResponse, st) else next st

/-- main.go registers `DowntimeMiddleware` with `router.Use` ahead of every
route, so each request — the control endpoints included — passes through it
before any handler. -/
def processRequest (st : DowntimeState)
    (handler : DowntimeState → HttpResponse × DowntimeState) :
    HttpResponse × DowntimeState :=
  DowntimeMiddleware st handler

/-- `DowntimeHandler` (the part behind the middleware): arm the flag; in
asynchronous mode respond at once leaving the flag armed (a timer goroutine
clears it later); in synchronous mode sleep out the window, clear the flag
and only then respond. -/
def DowntimeHandler (asyncMode : Bool) (_st : DowntimeState) :
    HttpResponse × DowntimeState :=
  if asyncMode then (⟨200, "", "downtime simulation started"⟩, ⟨true⟩)
  else (⟨200, "", "downtime simulation completed"⟩, ⟨false⟩)

/-! ### Worker driver shapes B and C (mysql_stress.go) -/

/-- Resource lifecycle events of a stress run; ids number the successful
`sql.Open` calls in program order. -/
inductive ResEvent where
  | openEv (id : ℕ)
  | closeEv (id : ℕ)
  | queryEv (id : ℕ)
deriving DecidableEq

/-- Open events carrying a given id. -/
def openCount (l : List ResEvent) (id : ℕ) : ℕ := l.count (ResEvent.openEv id)

/-- Close events carrying a given id. -/
def closeCount (l : List ResEvent) (id : ℕ) : ℕ := l.count (ResEvent.closeEv id)

/-- All open events. -/
def opensTotal (l : List ResEvent) : ℕ :=
  l.countP fun e => match e with | ResEvent.openEv _ => true | _ => false

/-- All close events. -/
def closesTotal (l : List ResEvent) : ℕ :=
  l.countP fun e => match e with | ResEvent.closeEv _ => true | _ => false

/-- Every decomposition point of the trace keeps the number of
simultaneously open resources within `bound`. -/
def prefixLiveBound (bound : Int) (l : List ResEvent) : Prop :=
  ∀ p t, l = p ++ t → (opensTotal p : Int) - (closesTotal p : Int) ≤ bound

/-- Event trace of one Shape B worker (the goroutine body of
`MySQLMultiHeavyHandler`): a failed `sql.Open` produces no resource and the
worker exits; a failed ping exits through the deferred close; a healthy
worker performs its query cycles (`workUnits` abstracts how many the
deadline loop reaches) and the deferred close fires on loop exit. -/
def multiHeavyWorkerEvents (openOk pingOk : Bool) (id workUnits : ℕ) : List ResEvent :=
  if !openOk then []
  else if !pingOk then [ResEvent.openEv id, ResEvent.closeEv id]
  else ResEvent.openEv id ::
    (List.replicate workUnits (ResEvent.queryEv id) ++ [ResEvent.closeEv id])

/-- Shape B run: `n` workers, worker `i` drawing its own open and ping
outcomes and work count. Each worker owns its private connection, so the
per-resource accounting is independent of goroutine interleaving and the
concatenation carries the event multiset of any schedule. -/
def multiHeavyRun (n : ℕ) (openOk pingOk : ℕ → Bool) (work : ℕ → ℕ) : List ResEvent :=
  (List.range n).flatMap fun i =>
    multiHeavyWorkerEvents (openOk i) (pingOk i) i (work i)

/-- Mutable state of the Shape C ramp loop in `MySQLConnectionHandler`:
the mutex-guarded connection list, the fresh-id counter for successful
opens, `currentCount`, and the event trace so far. -/
structure RampState where
  conns : List ℕ
  counter : ℕ
  currentCount : ℕ
  events : List ResEvent
deriving DecidableEq

/-- One ramp-up attempt: a failed `sql.Open` is logged and skipped; a failed
ping closes the fresh connection at once; success appends it to the list
and bumps `currentCount`. -/
def rampAttempt (openOk pingOk : Bool) (st : RampState) : RampState :=
  if !openOk then st
  else if !pingOk then
    { st with
        counter := st.counter + 1
        events := st.events ++ [ResEvent.openEv st.counter, ResEvent.closeEv st.counter] }
  else
    { conns := st.conns ++ [st.counter]
      counter := st.counter + 1
      currentCount := st.currentCount + 1
      events := st.events ++ [ResEvent.openEv st.counter] }

/-- The inner tick loop `for i := 0; i < increasePerInterval && currentCount
< connectionCounts; i++`, driven by one oracle pair per attempt. -/
def rampTick (target : Int) : List (Bool × Bool) → RampState → RampState
  | [], st => st
  | d :: ds, st =>
    if (st.currentCount : Int) < target then rampTick target ds (rampAttempt d.1 d.2 st)
    else st

/-- One iteration of the outer select loop: a ticker firing (with the draw
oracle for its attempts and whether the deadline check after it trips), or
the default branch's deadline check and 100 ms sleep. -/
inductive RampStep where
  | tick (draws : List (Bool × Bool)) (expiredAfter : Bool)
  | idle (expired : Bool)

/-- The outer ramp loop: it ends when the target is reached, the deadline
passes, or the schedule is exhausted (the deadline always ends any real
execution, so a finite schedule loses no behaviour). A tick performs at
most `increasePerInterval` attempts. -/
def rampLoop (target : Int) (inc : ℕ) : List RampStep → RampState → RampState
  | [], st => st
  | RampStep.idle expired :: rest, st =>
    if expired then st else rampLoop target inc rest st
  | RampStep.tick draws expiredAfter :: rest, st =>
    let st2 := rampTick target (draws.take inc) st
    if (st2.currentCount : Int) ≥ target then st2
    else if expiredAfter then st2
    else rampLoop target inc rest st2

/-- The ramp loop starts with no connections and no events. -/
def initialRampState : RampState := ⟨[], 0, 0, []⟩

/-- Full Shape C trace: the ramp phase, the hold phase (no resource events),
then the single close pass over the held connection list. -/
def shapeCRun (target : Int) (inc : ℕ) (steps : List RampStep) : List ResEvent :=
  let st := rampLoop target inc steps initialRampState
  st.events ++ st.conns.map ResEvent.closeEv

/-- Invariant of the Shape C ramp state tying events to the held list:
each id below the counter was opened exactly once; it is closed exactly
once unless still held; held ids are fresh-bounded and distinct;
`currentCount` mirrors the list length; and the trace never holds more
than `max target 0` resources open at any point. -/
def RampInv (target : Int) (st : RampState) : Prop :=
  (∀ id, openCount st.events id = if id < st.counter then 1 else 0) ∧
  (∀ id, closeCount st.events id = if id < st.counter ∧ id ∉ st.conns then 1 else 0) ∧
  (∀ id ∈ st.conns, id < st.counter) ∧
  st.conns.Nodup ∧
  st.currentCount = st.conns.length ∧
  opensTotal st.events = st.counter ∧
  closesTotal st.events + st.conns.length = st.counter ∧
  prefixLiveBound (max target 0) st.events

/-! ### Random log-format generator (logs source file) -/

/-- The five mandatory placeholder names. -/
def requiredPlaceholders : List String := ["time", "status_code", "method", "path", "client_ip"]

/-- The five optional placeholder names. -/
def optionalPlaceholders : List String :=
  ["latency", "user_agent", "protocol", "request_size", "response_size"]

/-- `strings.EqualFold` restricted to ASCII (all names compared are ASCII). -/
def goEqualFold (a b : String) : Bool := goToLower a = goToLower b

/-- The random draws the generator consumes, one independent oracle per draw
site; quantifying over the bundle covers every outcome of the single PRNG
the source draws from. -/
structure FmtRand where
  optCountDraw : ℕ
  optPick : ℕ → ℕ
  shuffleDraw : ℕ → ℕ
  timeUnitFloat : ℕ → ℚ
  sepDraw : ℕ → ℕ
  unitDraw : ℕ → ℕ
  wrapFloat : ℕ → ℚ
  wrapDraw : ℕ → ℕ
  dashFloat : ℕ → ℚ

/-- `generateRandomTimeFormat`: a random separator out of four, then the
fixed year-month-day-T-hour-minute-second pattern. -/
def generateRandomTimeFormat (draw : ℕ) : String :=
  let separators : List String := ["-", "/", ":", "."]
  let sep := separators.getD (draw % 4) ""
  "%Y" ++ sep ++ "%m" ++ sep ++ "%d" ++ "T" ++ "%H" ++ sep ++ "%M" ++ sep ++ "%S"

/-- The optional-placeholder loop: `optCount` rounds, each drawing one of the
five optional names and appending it only when not already present
(case-insensitively) and fewer than seven placeholders are collected. -/
def addOptLoop (r : FmtRand) (count : ℕ) (ps0 : List String) : List String :=
  (List.range count).foldl
    (fun acc i =>
      let opt := optionalPlaceholders.getD (r.optPick i % 5) ""
      let already := acc.any fun p => goEqualFold p opt
      if !already && acc.length < 7 then acc ++ [opt] else acc)
    ps0

/-- One Fisher-Yates swap of `rand.Shuffle`. -/
def swapAt (l : List String) (i j : ℕ) : List String :=
  match l.get? i, l.get? j with
  | some a, some b => (l.set i b).set j a
  | _, _ => l

/-- `rand.Shuffle(n, swap)`: for `i` from `n-1` down to `1`, swap position
`i` with a drawn position in `[0, i]`. -/
def shuffleSteps (r : FmtRand) (l : List String) : List String :=
  ((List.range' 1 (l.length - 1)).reverse).foldl
    (fun acc i => swapAt acc i (r.shuffleDraw i % (i + 1))) l

/-- The latency unit pool of the generator. -/
def latencyUnits : List String := ["s", "ms", "micros", "ns"]

/-- The size unit pool of the generator. -/
def sizeUnits : List String := ["b", "kb", "mb", "gb"]

/-- The unit-decoration switch of the generator loop: time gets an optional
random strftime pattern, latency and the sizes a random unit, everything
else plain braces. -/
def phToken (r : FmtRand) (i : ℕ) (ph : String) : String :=
  if goToLower ph = "time" then
    if r.timeUnitFloat i < 1/2 then
      "\x7btime:" ++ generateRandomTimeFormat (r.sepDraw i) ++ "\x7d"
    else "\x7btime\x7d"
  else if goToLower ph = "latency" then
    "\x7blatency:" ++ latencyUnits.getD (r.unitDraw i % 4) "" ++ "\x7d"
  else if goToLower ph = "request_size" ∨ goToLower ph = "response_size" then
    "\x7b" ++ goToLower ph ++ ":" ++ sizeUnits.getD (r.unitDraw i % 4) "" ++ "\x7d"
  else "\x7b" ++ ph ++ "\x7d"

/-- The 50 percent wrap decoration: double quotes, single quotes, or square
brackets around the braced token. -/
def wrapToken (r : FmtRand) (i : ℕ) (tok : String) : String :=
  if r.wrapFloat i < 1/2 then
    let ws : List (String × String) := [("\"", "\""), ("\x27", "\x27"), ("[", "]")]
    let w := ws.getD (r.wrapDraw i % 3) ("", "")
    w.1 ++ tok ++ w.2
  else tok

/-- The decoration loop over the shuffled names, indexed from `i`. -/
def decorate (r : FmtRand) : ℕ → List String → List String
  | _, [] => []
  | i, ph :: ps => wrapToken r i (phToken r i ph) :: decorate r (i + 1) ps

/-- The assembly loop: each token, followed 30 percent of the time by a
dash separator token. -/
def buildParts (r : FmtRand) : ℕ → List String → List String
  | _, [] => []
  | i, t :: ts =>
    let rest := buildParts r (i + 1) ts
    if r.dashFloat i < 3/10 then t :: "-" :: rest else t :: rest

/-- `strings.Join(parts, sep)`. -/
def goJoin (sep : String) : List String → String
  | [] => ""
  | [p] => p
  | p :: ps => p ++ sep ++ goJoin sep ps

/-- `generateRandomGlobalLogFormat`: required names, up to two drawn
optional names, a shuffle, unit and wrap decoration, and a space join with
probabilistic dash separators. -/
def generateRandomGlobalLogFormat (r : FmtRand) : String :=
  let placeholders := addOptLoop r (r.optCountDraw % 3) requiredPlaceholders
  let shuffled := shuffleSteps r placeholders
  let toks := decorate r 0 shuffled
  goJoin (" ") (buildParts r 0 toks)

/-- Brace-free character lists: the shape of everything the generator puts
around and inside placeholder braces. -/
def braceFreeL (l : List Char) : Prop := ∀ c ∈ l, isBraceChar c = false

/-- What one joined part may look like: the literal dash separator, or a
wrapped placeholder token whose brace-trimmed content carries key `k`. -/
inductive PartSpec : String → Option String → Prop where
  | dash : PartSpec ("-") none
  | tok (w1 body w2 : List Char) (k : String) :
      braceFreeL w1 → braceFreeL body → braceFreeL w2 → body ≠ [] →
      placeholderKey (String.mk body) = k →
      PartSpec (String.mk (w1 ++ '\x7b' :: (body ++ '\x7d' :: w2))) (some k)

instance (l : List Char) : Decidable (braceFreeL l) :=
  inferInstanceAs (Decidable (∀ c ∈ l, isBraceChar c = false))

/-! ### Theorems -/

theorem goAtoiL_head_r (t : List Char) :
    goAtoiL ('r' :: t) = Except.error ("strconv.Atoi: invalid syntax") := by
  simp [goAtoiL, goAtoiDigits, isDigitChar]

/-- `strconv.Atoi` rejects every `randomValue-<suffix>` token. -/
theorem goAtoi_randomValue (x : String) :
    goAtoi (("randomValue-") ++ x) = Except.error ("strconv.Atoi: invalid syntax") := by
  have h : (("randomValue-") ++ x).data = 'r' :: (("andomValue-").data ++ x.data) := rfl
  rw [goAtoi, h, goAtoiL_head_r]

theorem processRandomInt_RANDOM (s e : Int) (rng : ℕ → ℕ) (h : s < e) :
    processRandomInt ("RANDOM") s e rng
      = Except.ok (((rng 0 % (e - s).toNat : ℕ) : Int) + s) := by
  have ht : trimSpace ("RANDOM") = "RANDOM" := rfl
  have hn : ¬ (e - s ≤ 0) := by omega
  simp [processRandomInt, ht, goIntn, hn]

theorem goIntn_mod_bounds (r : ℕ) (n : Int) (h : 0 < n) :
    ((r % n.toNat : ℕ) : Int) < n ∧ (0 : Int) ≤ ((r % n.toNat : ℕ) : Int) := by
  constructor
  · have hpos : 0 < n.toNat := by omega
    have := Nat.mod_lt r hpos
    omega
  · positivity

theorem duckInt_RANDOM_fails (rng : ℕ → ℕ) :
    duckIntUnmarshalJSON (JVal.jstr ("RANDOM")) rng
      = Except.error ("strconv.Atoi: invalid syntax") := by
  have ht : trimSpace ("RANDOM") = "RANDOM" := rfl
  have hn : ¬ ((10000 : Int) ≤ 0) := by norm_num
  simp [duckIntUnmarshalJSON, ht, processRandomValue, goIntn, hn, goAtoi_randomValue]

/-- C1 (amended): with a caller-supplied default range, `processRandomInt` on
the raw string RANDOM succeeds with a uniform draw in the half-open default
range; decoding a JSON string RANDOM into a DuckFloat succeeds with a value
in the fixed range `[0, 1)` (no caller-supplied range is consulted); but
decoding a JSON string RANDOM into a DuckInt always fails with a parse error,
because it resolves to the random string token `randomValue-<n>`. -/
theorem c1_random_default_range (s e : Int) (rng : ℕ → ℕ) (frng : ℕ → ℚ)
    (hrange : s < e) (hf0 : 0 ≤ frng 0) (hf1 : frng 0 < 1) :
    (∃ v, processRandomInt ("RANDOM") s e rng = Except.ok v ∧ s ≤ v ∧ v < e) ∧
    (∃ q, duckFloatUnmarshalJSON (JVal.jstr ("RANDOM")) frng = Except.ok q ∧ 0 ≤ q ∧ q < 1) ∧
    duckIntUnmarshalJSON (JVal.jstr ("RANDOM")) rng
      = Except.error ("strconv.Atoi: invalid syntax") := by
  have hb := goIntn_mod_bounds (rng 0) (e - s) (by omega)
  refine ⟨⟨((rng 0 % (e - s).toNat : ℕ) : Int) + s,
      processRandomInt_RANDOM s e rng hrange, by omega, by omega⟩,
    ⟨frng 0, ?_, hf0, hf1⟩, duckInt_RANDOM_fails rng⟩
  have ht : trimSpace ("RANDOM") = "RANDOM" := rfl
  simp [duckFloatUnmarshalJSON, ht]

/-- C1 witness: the amended statement instantiated at range `[1, 5)` and
concrete oracle draws. -/
theorem c1_witness :
    (∃ v, processRandomInt ("RANDOM") 1 5 (fun _ => 2) = Except.ok v ∧ 1 ≤ v ∧ v < 5) ∧
    (∃ q, duckFloatUnmarshalJSON (JVal.jstr ("RANDOM")) (fun _ => 1/2)
        = Except.ok q ∧ 0 ≤ q ∧ q < 1) ∧
    duckIntUnmarshalJSON (JVal.jstr ("RANDOM")) (fun _ => 2)
      = Except.error ("strconv.Atoi: invalid syntax") :=
  c1_random_default_range 1 5 (fun _ => 2) (fun _ => 1/2)
    (by norm_num) (by norm_num) (by norm_num)

/-- C1 counterexample: the claim says decoding a JSON string RANDOM into a
DuckInt field never fails, but `DuckInt.UnmarshalJSON` on the concrete input
RANDOM (draw stream constantly 0) returns a parse error. -/
theorem c1_counterexample :
    duckIntUnmarshalJSON (JVal.jstr ("RANDOM")) (fun _ => 0)
      = Except.error ("strconv.Atoi: invalid syntax") :=
  duckInt_RANDOM_fails (fun _ => 0)

theorem startsWith_RANDOMcolon_ne (t : String)
    (h : goStartsWith t ("RANDOM:") = true) : t ≠ "RANDOM" := by
  intro he
  rw [he] at h
  exact absurd h (by decide)

/-- C7: for `RANDOM:<a>:<b>` inputs with exactly three colon-separated
tokens, integer bounds and `a < b`, both `processRandomInt` and
`processRandomValue` succeed and the resolved value lies in `[a, b)` for
every possible draw. -/
theorem c7_random_range_law (value p0 x y : String) (a b d1 d2 : Int) (rng : ℕ → ℕ)
    (hpre : goStartsWith (trimSpace value) ("RANDOM:") = true)
    (hsplit : goSplitColon (trimSpace value) = [p0, x, y])
    (hx : goAtoi x = Except.ok a) (hy : goAtoi y = Except.ok b) (hab : a < b) :
    (∃ v, processRandomInt value d1 d2 rng = Except.ok v ∧ a ≤ v ∧ v < b) ∧
    (∃ v, processRandomValue (trimSpace value) rng
        = Except.ok (RVal.rint v) ∧ a ≤ v ∧ v < b) := by
  have hne := startsWith_RANDOMcolon_ne (trimSpace value) hpre
  have hnab : ¬ (a ≥ b) := by omega
  have hpos : ¬ (b - a ≤ 0) := by omega
  have hb := goIntn_mod_bounds (rng 0) (b - a) (by omega)
  refine ⟨⟨((rng 0 % (b - a).toNat : ℕ) : Int) + a, ?_, by omega, by omega⟩,
    ⟨((rng 0 % (b - a).toNat : ℕ) : Int) + a, ?_, by omega, by omega⟩⟩
  · simp [processRandomInt, hne, hpre, hsplit, hx, hy, hnab, goIntn, hpos]
  · simp [processRandomValue, hne, hpre, hsplit, hx, hy, hnab, goIntn, hpos]

/-- C7 witness: the range law instantiated at `RANDOM:2:5` with draw 9,
resolving to 2 + (9 mod 3) = 2. -/
theorem c7_witness :
    (∃ v, processRandomInt ("RANDOM:2:5") 0 0 (fun _ => 9) = Except.ok v ∧ 2 ≤ v ∧ v < 5) ∧
    (∃ v, processRandomValue (trimSpace ("RANDOM:2:5")) (fun _ => 9)
        = Except.ok (RVal.rint v) ∧ 2 ≤ v ∧ v < 5) :=
  c7_random_range_law ("RANDOM:2:5") ("RANDOM") ("2") ("5") 2 5 0 0 (fun _ => 9)
    (by decide) (by decide) rfl rfl (by norm_num)

theorem duckInt_invalidRange (s : String) (rng : ℕ → ℕ) (p0 x y : String) (a b : Int)
    (hpre : goStartsWith (trimSpace s) ("RANDOM:") = true)
    (hsplit : goSplitColon (trimSpace s) = [p0, x, y])
    (hx : goAtoi x = Except.ok a) (hy : goAtoi y = Except.ok b) (hab : b ≤ a) :
    duckIntUnmarshalJSON (JVal.jstr s) rng
      = Except.error ("invalid RANDOM range: start must be less than end") := by
  have hne := startsWith_RANDOMcolon_ne (trimSpace s) hpre
  simp [duckIntUnmarshalJSON, processRandomValue, hne, hpre, hsplit, hx, hy, hab]

/-- C2 (amended): a `RANDOM:<a>:<b>` DuckInt field with `a ≥ b` makes the
payload bind fail with the distinct invalid-range error, and
`MySQLHeavyHandler` surfaces that failure to the HTTP caller as status 400
with error code INVALID_PAYLOAD (the codebase has no INVALID_RANGE code)
before any job starts; and every non-numeric, non-RANDOM string fails
integer resolution with the `strconv.Atoi` parse error. -/
theorem c2_invalid_range_surfaced (raw : MySQLHeavyRawPayload) (rng : ℕ → ℕ → ℕ)
    (s p0 x y : String) (a b : Int)
    (hfield : raw.maintainSecondRaw = some (JVal.jstr s))
    (hpre : goStartsWith (trimSpace s) ("RANDOM:") = true)
    (hsplit : goSplitColon (trimSpace s) = [p0, x, y])
    (hx : goAtoi x = Except.ok a) (hy : goAtoi y = Except.ok b) (hab : b ≤ a) :
    mysqlHeavyHandlerPhase1 raw rng
      = HandlerPhase.errorResp 400 ("INVALID_PAYLOAD")
          ("invalid random range: start must be less than end") ∧
    (∀ (s' : String) (d1 d2 : Int) (rng' : ℕ → ℕ) (e : String),
      trimSpace s' ≠ "RANDOM" →
      goStartsWith (trimSpace s') ("RANDOM:") = false →
      goAtoi (trimSpace s') = Except.error e →
      processRandomInt s' d1 d2 rng' = Except.error e) := by
  constructor
  · have h1 := duckInt_invalidRange s (rng 0) p0 x y a b hpre hsplit hx hy hab
    have h2 : errorJSONCode ("INVALID_PAYLOAD") = "INVALID_PAYLOAD" := rfl
    have h3 : goToLower ("invalid RANDOM range: start must be less than end")
        = "invalid random range: start must be less than end" := rfl
    simp [mysqlHeavyHandlerPhase1, mysqlHeavyBind, bindDuckInt, hfield, h1, h2, h3]
  · intro s' d1 d2 rng' e h1 h2 h3
    simp [processRandomInt, h1, h2, h3]

/-- C2 witness: the amended statement at the concrete field `RANDOM:7:4`. -/
theorem c2_witness :
    mysqlHeavyHandlerPhase1 ⟨none, none, some (JVal.jstr ("RANDOM:7:4")), none, none, none⟩
        (fun _ _ => 1)
      = HandlerPhase.errorResp 400 ("INVALID_PAYLOAD")
          ("invalid random range: start must be less than end") ∧
    (∀ (s' : String) (d1 d2 : Int) (rng' : ℕ → ℕ) (e : String),
      trimSpace s' ≠ "RANDOM" →
      goStartsWith (trimSpace s') ("RANDOM:") = false →
      goAtoi (trimSpace s') = Except.error e →
      processRandomInt s' d1 d2 rng' = Except.error e) :=
  c2_invalid_range_surfaced ⟨none, none, some (JVal.jstr ("RANDOM:7:4")), none, none, none⟩
    (fun _ _ => 1) ("RANDOM:7:4") ("RANDOM") ("7") ("4") 7 4
    rfl (by decide) (by decide) rfl rfl (by norm_num)

/-- C2 counterexample: on `RANDOM:5:3` the handler surfaces HTTP 400 with
error code INVALID_PAYLOAD, not the claimed INVALID_RANGE. -/
theorem c2_counterexample :
    mysqlHeavyHandlerPhase1 ⟨none, none, some (JVal.jstr ("RANDOM:5:3")), none, none, none⟩
        (fun _ _ => 0)
      = HandlerPhase.errorResp 400 ("INVALID_PAYLOAD")
          ("invalid random range: start must be less than end") ∧
    ("INVALID_PAYLOAD") ≠ ("INVALID_RANGE") := by
  refine ⟨rfl, by decide⟩


theorem goFormatG_natCast (n : ℕ) (h : n ≠ 0) : goFormatG ((n : ℚ)) = goFormatGNat n := by
  have h0 : ¬((n : ℚ) = 0) := by exact_mod_cast h
  have hneg : ¬((n : ℚ) < 0) := not_lt.mpr (Nat.cast_nonneg n)
  have habs : |((n : ℚ))| = ((n : ℚ)) := abs_of_nonneg (Nat.cast_nonneg n)
  have hf2 : factorOut 2 1 = (0, 1) := by decide
  have hf5 : factorOut 5 1 = (0, 1) := by decide
  have hne : ¬((1 : ℕ) ≠ 1) := by norm_num
  simp only [goFormatG, goFormatGNat, if_neg h0, if_neg hneg, habs, Rat.den_natCast,
    hf2, hf5, if_neg hne, Rat.num_natCast, pow_zero, mul_one, Int.toNat_natCast,
    max_self]

theorem latency_dispatch_s (c : LogContext) (lat : Int) :
    resolvePlaceholder ("latency:s") c lat
      = Except.ok (goFormatG ((lat : ℚ) / 1000 / 1000 / 1000)) := rfl

theorem latency_dispatch_ms (c : LogContext) (lat : Int) :
    resolvePlaceholder ("latency:ms") c lat
      = Except.ok (goFormatG ((lat : ℚ) / 1000 / 1000)) := rfl

theorem latency_dispatch_auto (c : LogContext) (lat : Int) :
    resolvePlaceholder ("latency") c lat = Except.ok (resolveLatency ("") lat) := rfl

theorem resolveLatency_auto (lat : Int) :
    resolveLatency ("") lat
      = (let ns : ℚ := (lat : ℚ)
         if ns ≥ 1000 * 1000 * 1000 then goFormatG (ns / 1000 / 1000 / 1000) ++ "s"
         else if ns ≥ 1000 * 1000 then goFormatG (ns / 1000 / 1000) ++ "ms"
         else if ns ≥ 1000 then goFormatG (ns / 1000) ++ "μs"
         else goFormatG ns ++ "ns") := rfl

/-- C3 (amended): a latency of exactly 1,000,000,000 nanoseconds renders as
the string 1 under unit specifier s and as 1000 under ms; with no unit
specifier the auto-scaled branch picks the largest unit of magnitude at
least one and prints 1s — the %g verb emits no fixed decimal places, so the
output is 1s, not 1.000s. -/
theorem c3_latency_unit_rendering (c : LogContext) :
    resolvePlaceholder ("latency:s") c 1000000000 = Except.ok ("1") ∧
    resolvePlaceholder ("latency:ms") c 1000000000 = Except.ok ("1000") ∧
    resolvePlaceholder ("latency") c 1000000000 = Except.ok ("1s") := by
  have hs : (((1000000000 : Int) : ℚ)) / 1000 / 1000 / 1000 = ((1 : ℕ) : ℚ) := by norm_num
  have hms : (((1000000000 : Int) : ℚ)) / 1000 / 1000 = ((1000 : ℕ) : ℚ) := by norm_num
  have hbig : (((1000000000 : Int) : ℚ)) ≥ 1000 * 1000 * 1000 := by norm_num
  have d1 : goFormatGNat 1 = "1" := by decide
  have d2 : goFormatGNat 1000 = "1000" := by decide
  refine ⟨?_, ?_, ?_⟩
  · rw [latency_dispatch_s, hs, goFormatG_natCast 1 (by norm_num), d1]
  · rw [latency_dispatch_ms, hms, goFormatG_natCast 1000 (by norm_num), d2]
  · rw [latency_dispatch_auto, resolveLatency_auto]
    simp only []
    rw [if_pos hbig, hs, goFormatG_natCast 1 (by norm_num), d1]
    rfl

/-- C3 counterexample: with no unit specifier the rendering of a one-second
latency is 1s, which is not the 1.000s the claim states. -/
theorem c3_counterexample :
    resolvePlaceholder ("latency") sampleLogContext 1000000000 = Except.ok ("1s") ∧
    ("1s" : String) ≠ ("1.000s") := by
  have hs : (((1000000000 : Int) : ℚ)) / 1000 / 1000 / 1000 = ((1 : ℕ) : ℚ) := by norm_num
  have hbig : (((1000000000 : Int) : ℚ)) ≥ 1000 * 1000 * 1000 := by norm_num
  have d1 : goFormatGNat 1 = "1" := by decide
  refine ⟨?_, by decide⟩
  rw [latency_dispatch_auto, resolveLatency_auto]
  simp only []
  rw [if_pos hbig, hs, goFormatG_natCast 1 (by norm_num), d1]
  rfl

theorem dropWhile_of_all_false (p : Char → Bool) :
    ∀ l : List Char, (∀ c ∈ l, p c = false) → l.dropWhile p = l := by
  intro l h
  cases l with
  | nil => rfl
  | cons c t => simp [List.dropWhile, h c (by simp)]

theorem trimBraces_id (l : List Char) (h : ∀ ch ∈ l, isBraceChar ch = false) :
    trimBraces l = l := by
  unfold trimBraces
  rw [dropWhile_of_all_false isBraceChar l h,
    dropWhile_of_all_false isBraceChar l.reverse (by simpa using fun c hc => h c hc),
    List.reverse_reverse]

theorem scanSegsAux_none_cons_ne (c : Char) (t : List Char) (h : c ≠ '\x7b') :
    scanSegsAux none (c :: t) = LogSeg.lit [c] :: scanSegsAux none t := by
  simp [scanSegsAux, h]

theorem scanSegsAux_none_append (s t : List Char) (h : ∀ ch ∈ s, ch ≠ '\x7b') :
    scanSegsAux none (s ++ t)
      = (s.map fun ch => LogSeg.lit [ch]) ++ scanSegsAux none t := by
  induction s with
  | nil => simp
  | cons c rest ih =>
    rw [List.cons_append, scanSegsAux_none_cons_ne c (rest ++ t) (h c (by simp))]
    simp [ih fun ch hch => h ch (by simp [hch])]

theorem scanSegsAux_collect (body : List Char) :
    ∀ (acc t : List Char), (∀ ch ∈ body, ch ≠ '\x7d') → acc ≠ [] ∨ body ≠ [] →
    scanSegsAux (some acc) (body ++ '\x7d' :: t)
      = LogSeg.ph (acc.reverse ++ body) :: scanSegsAux none t := by
  induction body with
  | nil =>
    intro acc t _ hne
    have hacc : acc ≠ [] := by
      rcases hne with h | h
      · exact h
      · exact absurd rfl h
    simp [scanSegsAux, List.isEmpty_iff, hacc]
  | cons b bs ih =>
    intro acc t hb _
    have hbne : b ≠ '\x7d' := hb b (by simp)
    rw [List.cons_append]
    show scanSegsAux (some acc) (b :: (bs ++ '\x7d' :: t)) = _
    rw [show scanSegsAux (some acc) (b :: (bs ++ '\x7d' :: t))
        = scanSegsAux (some (b :: acc)) (bs ++ '\x7d' :: t) by simp [scanSegsAux, hbne]]
    rw [ih (b :: acc) t (fun ch hch => hb ch (by simp [hch])) (Or.inl (by simp))]
    simp

theorem scanSegs_placeholder (body t : List Char)
    (h1 : body ≠ []) (h2 : ∀ ch ∈ body, ch ≠ '\x7d') :
    scanSegsAux none ('\x7b' :: (body ++ '\x7d' :: t))
      = LogSeg.ph body :: scanSegsAux none t := by
  rw [show scanSegsAux none ('\x7b' :: (body ++ '\x7d' :: t))
      = scanSegsAux (some []) (body ++ '\x7d' :: t) by simp [scanSegsAux]]
  rw [scanSegsAux_collect body [] t h2 (Or.inr h1)]
  simp

theorem flatten_lit_map (c : LogContext) (lat : Int) (s : List Char) :
    (((s.map fun ch => LogSeg.lit [ch])).map (renderSeg c lat)).flatten = s := by
  induction s with
  | nil => rfl
  | cons a t ih =>
    simp only [List.map_cons, List.flatten_cons, renderSeg]
    rw [List.map_map] at ih
    simp [ih]

set_option maxHeartbeats 2000000 in
theorem resolvePlaceholder_unsupported (content : String) (c : LogContext) (lat : Int)
    (h : placeholderKey content ∉ supportedLogKeys) :
    resolvePlaceholder content c lat
      = Except.error ("unsupported placeholder: " ++ placeholderKey content) := by
  simp only [supportedLogKeys, List.mem_cons, List.not_mem_nil, or_false, not_or] at h
  simp only [placeholderKey] at h ⊢
  obtain ⟨h1, h2, h3, h4, h5, h6, h7, h8, h9, h10⟩ := h
  simp only [resolvePlaceholder]
  rw [if_neg h1, if_neg h2, if_neg h3, if_neg h4, if_neg h5, if_neg h6, if_neg h7,
    if_neg h8, if_neg h9, if_neg h10]

set_option maxHeartbeats 2000000 in
theorem resolvePlaceholder_supported (content : String) (c : LogContext) (lat : Int)
    (h : placeholderKey content ∈ supportedLogKeys) :
    ∃ v, resolvePlaceholder content c lat = Except.ok v := by
  simp only [supportedLogKeys, List.mem_cons, List.not_mem_nil, or_false] at h
  simp only [placeholderKey] at h
  simp only [resolvePlaceholder]
  rcases h with h | h | h | h | h | h | h | h | h | h <;> rw [h] <;> simp

theorem renderSeg_unsupported (c : LogContext) (lat : Int) (content : List Char)
    (hb : ∀ ch ∈ content, isBraceChar ch = false)
    (h : placeholderKey (String.mk content) ∉ supportedLogKeys) :
    renderSeg c lat (LogSeg.ph content) = ('E' :: 'R' :: 'R' :: []) := by
  simp only [renderSeg, trimBraces_id content hb]
  rw [resolvePlaceholder_unsupported (String.mk content) c lat h]

theorem stringmk_append (a b : List Char) :
    String.mk (a ++ b) = String.mk a ++ String.mk b := rfl

/-- C9: rendering a format containing a placeholder with an unknown key
substitutes the literal marker ERR for that placeholder only — the literal
text before it and the whole remainder of the format still render normally —
and every placeholder whose key is in the supported set resolves
successfully, so rendering never fails as a whole. -/
theorem c9_unknown_key_renders_err (pre post : String) (content : List Char)
    (c : LogContext) (lat : Int)
    (hpre : ∀ ch ∈ pre.data, ch ≠ '\x7b')
    (hc0 : content ≠ [])
    (hcb : ∀ ch ∈ content, isBraceChar ch = false)
    (hkey : placeholderKey (String.mk content) ∉ supportedLogKeys) :
    FormatLogMessage (pre ++ String.mk ('\x7b' :: (content ++ ['\x7d'])) ++ post) c lat
      = pre ++ "ERR" ++ FormatLogMessage post c lat ∧
    (∀ content2 : String, placeholderKey content2 ∈ supportedLogKeys →
      ∃ v, resolvePlaceholder content2 c lat = Except.ok v) := by
  constructor
  · have hdata : (pre ++ String.mk ('\x7b' :: (content ++ ['\x7d'])) ++ post).data
        = pre.data ++ ('\x7b' :: (content ++ '\x7d' :: post.data)) := by
      simp [String.data_append]
    have hnb : ∀ ch ∈ content, ch ≠ '\x7d' := by
      intro ch hch
      have := hcb ch hch
      simp [isBraceChar] at this
      exact this.2
    unfold FormatLogMessage scanSegs
    rw [hdata, scanSegsAux_none_append pre.data _ hpre,
      scanSegs_placeholder content post.data hc0 hnb,
      List.map_append, List.flatten_append, flatten_lit_map,
      List.map_cons, List.flatten_cons,
      renderSeg_unsupported c lat content hcb hkey]
    rw [← List.append_assoc]
    rfl
  · exact fun content2 h2 => resolvePlaceholder_supported content2 c lat h2

/-- C9 witness: a format with the unknown key foo between a literal prefix
and a recognized method placeholder. -/
theorem c9_witness :
    FormatLogMessage (("x: ") ++ String.mk ('\x7b' :: (("foo").data ++ ['\x7d'])) ++ ("\x7bmethod\x7d"))
        sampleLogContext 7
      = ("x: ") ++ "ERR" ++ FormatLogMessage ("\x7bmethod\x7d") sampleLogContext 7 ∧
    (∀ content2 : String, placeholderKey content2 ∈ supportedLogKeys →
      ∃ v, resolvePlaceholder content2 sampleLogContext 7 = Except.ok v) :=
  c9_unknown_key_renders_err ("x: ") ("\x7bmethod\x7d") (("foo").data) sampleLogContext 7
    (by decide) (by decide) (by decide) (by decide)

/-- C8: while packet loss is armed and unexpired every request draws exactly
one uniform roll and is dropped with 503 exactly when the roll is below the
loss percentage; with the control endpoint arming 100 percent for a window,
every request inside the window is dropped with the simulated-packet-loss
503, and any request at or after the expiry is not dropped and draws no
roll. -/
theorem c8_packet_loss (st0 : NetworkStressState) (dur t0 : Int) (rng : ℕ → ℕ) :
    (∀ st : NetworkStressState, ∀ t : Int, t < st.packetLossExpiry → 0 < st.activePacketLoss →
      (NetworkStressMiddleware st t rng).rollsUsed = 1 ∧
      ((NetworkStressMiddleware st t rng).aborted
          = some (503, "SERVICE_UNAVAILABLE", "simulated packet loss, request dropped")
        ↔ ((rng 0 % 100 : ℕ) : Int) < st.activePacketLoss)) ∧
    (∀ t : Int, t < t0 + dur →
      (NetworkStressMiddleware (setPacketLoss st0 100 dur t0) t rng).aborted
        = some (503, "SERVICE_UNAVAILABLE", "simulated packet loss, request dropped")) ∧
    (∀ t : Int, t0 + dur ≤ t →
      (NetworkStressMiddleware (setPacketLoss st0 100 dur t0) t rng).aborted = none ∧
      (NetworkStressMiddleware (setPacketLoss st0 100 dur t0) t rng).rollsUsed = 0) := by
  refine ⟨?_, ?_, ?_⟩
  · intro st t hexp hloss
    by_cases hroll : ((rng 0 : ℕ) : Int) % 100 < st.activePacketLoss <;>
      constructor <;> simp [NetworkStressMiddleware, hexp, hloss, hroll]
  · intro t ht
    have hcond : t < (setPacketLoss st0 100 dur t0).packetLossExpiry ∧
        (setPacketLoss st0 100 dur t0).activePacketLoss > 0 := by
      simp [setPacketLoss]
      omega
    have hroll : ((rng 0 % 100 : ℕ) : Int) < (setPacketLoss st0 100 dur t0).activePacketLoss := by
      have : rng 0 % 100 < 100 := Nat.mod_lt _ (by norm_num)
      simp [setPacketLoss]
      omega
    simp only [NetworkStressMiddleware, if_pos hcond, if_pos hroll]
  · intro t ht
    have hcond : ¬(t < (setPacketLoss st0 100 dur t0).packetLossExpiry ∧
        (setPacketLoss st0 100 dur t0).activePacketLoss > 0) := by
      simp [setPacketLoss]
      omega
    simp [NetworkStressMiddleware, hcond]

/-- C10: while the downtime flag is armed, every request — whichever handler
it routes to, the downtime control endpoint included — is answered with the
fixed 503 SERVICE_DOWN payload, the handler is never consulted (the outcome
is the same for every handler), and the flag is left armed, so the window
cannot be cleared, shortened or extended over HTTP before the timer resets
it. -/
theorem c10_downtime_short_circuit (st : DowntimeState)
    (h h' : DowntimeState → HttpResponse × DowntimeState)
    (hact : st.downtimeActive = true) :
    processRequest st h = (serviceDownResponse, st) ∧
    processRequest st h = processRequest st h' ∧
    (processRequest st h).2.downtimeActive = true ∧
    (∀ asyncMode, processRequest st (DowntimeHandler asyncMode) = (serviceDownResponse, st)) := by
  have e : ∀ g : DowntimeState → HttpResponse × DowntimeState,
      processRequest st g = (serviceDownResponse, st) := by
    intro g
    simp [processRequest, DowntimeMiddleware, hact]
  refine ⟨e h, (e h).trans (e h').symm, ?_, fun a => e (DowntimeHandler a)⟩
  rw [e h]
  exact hact

/-- C10 witness: the armed state with two distinct sample handlers. -/
theorem c10_witness :
    processRequest ⟨true⟩ (fun s => (⟨200, "", "ok"⟩, s)) = (serviceDownResponse, ⟨true⟩) ∧
    processRequest ⟨true⟩ (fun s => (⟨200, "", "ok"⟩, s))
      = processRequest ⟨true⟩ (fun s => (⟨404, "", "no"⟩, s)) ∧
    (processRequest ⟨true⟩ (fun s => (⟨200, "", "ok"⟩, s))).2.downtimeActive = true ∧
    (∀ asyncMode, processRequest ⟨true⟩ (DowntimeHandler asyncMode)
        = (serviceDownResponse, ⟨true⟩)) :=
  c10_downtime_short_circuit ⟨true⟩ (fun s => (⟨200, "", "ok"⟩, s))
    (fun s => (⟨404, "", "no"⟩, s)) rfl

theorem worker_counts (o p : Bool) (i w id : ℕ) :
    openCount (multiHeavyWorkerEvents o p i w) id = (if id = i ∧ o = true then 1 else 0) ∧
    closeCount (multiHeavyWorkerEvents o p i w) id = (if id = i ∧ o = true then 1 else 0) := by
  cases o <;> cases p <;> by_cases h : id = i <;>
    simp [multiHeavyWorkerEvents, openCount, closeCount, h, List.count_cons,
      List.count_append, List.count_replicate]

theorem multiHeavyRun_counts (openOk pingOk : ℕ → Bool) (work : ℕ → ℕ) (id : ℕ) :
    ∀ n, closeCount (multiHeavyRun n openOk pingOk work) id
        = openCount (multiHeavyRun n openOk pingOk work) id ∧
      openCount (multiHeavyRun n openOk pingOk work) id ≤ 1 ∧
      (n ≤ id → openCount (multiHeavyRun n openOk pingOk work) id = 0) := by
  intro n
  induction n with
  | zero => simp [multiHeavyRun, openCount, closeCount]
  | succ m ih =>
    have hsplit : multiHeavyRun (m + 1) openOk pingOk work
        = multiHeavyRun m openOk pingOk work
          ++ multiHeavyWorkerEvents (openOk m) (pingOk m) m (work m) := by
      simp [multiHeavyRun, List.range_succ]
    obtain ⟨ih1, ih2, ih3⟩ := ih
    obtain ⟨hw1, hw2⟩ := worker_counts (openOk m) (pingOk m) m (work m) id
    unfold openCount closeCount at *
    rw [hsplit, List.count_append, List.count_append]
    refine ⟨by rw [ih1, hw1, hw2], ?_, ?_⟩
    · by_cases hm : id = m
      · have : List.count (ResEvent.openEv id) (multiHeavyRun m openOk pingOk work) = 0 :=
          ih3 (le_of_eq hm.symm)
        rw [this, hw1]
        split_ifs <;> omega
      · rw [hw1, if_neg (fun hc => hm hc.1)]
        omega
    · intro hle
      have hm : ¬(id = m) := by omega
      rw [ih3 (by omega), hw1, if_neg (fun hc => hm hc.1)]

theorem opensTotal_append (a b : List ResEvent) :
    opensTotal (a ++ b) = opensTotal a + opensTotal b := List.countP_append _ a b

theorem closesTotal_append (a b : List ResEvent) :
    closesTotal (a ++ b) = closesTotal a + closesTotal b := List.countP_append _ a b

theorem prefixLiveBound_append (l s : List ResEvent) (b : Int)
    (h1 : prefixLiveBound b l)
    (h2 : ∀ p t, s = p ++ t →
      (opensTotal l : Int) - (closesTotal l : Int)
        + ((opensTotal p : Int) - (closesTotal p : Int)) ≤ b) :
    prefixLiveBound b (l ++ s) := by
  intro p t hpt
  rcases List.append_eq_append_iff.mp hpt.symm with ⟨a', ha1, _⟩ | ⟨c', hc1, hc2⟩
  · exact h1 p a' ha1
  · subst hc1
    have := h2 c' t hc2
    rw [opensTotal_append, closesTotal_append]
    push_cast
    omega

theorem rampInv_initial (target : Int) : RampInv target initialRampState := by
  refine ⟨?_, ?_, ?_, ?_, rfl, rfl, rfl, ?_⟩
  · intro id; simp [initialRampState, openCount]
  · intro id; simp [initialRampState, closeCount]
  · intro id h; simp [initialRampState] at h
  · simp [initialRampState]
  · intro p t hpt
    have hp : p = [] := (List.append_eq_nil.mp hpt.symm).1
    subst hp
    simp [opensTotal, closesTotal]

theorem count_pair_open (id c : ℕ) :
    List.count (ResEvent.openEv id) [ResEvent.openEv c, ResEvent.closeEv c]
      = if id = c then 1 else 0 := by
  by_cases hc : id = c <;> simp [hc]

theorem count_pair_close (id c : ℕ) :
    List.count (ResEvent.closeEv id) [ResEvent.openEv c, ResEvent.closeEv c]
      = if id = c then 1 else 0 := by
  by_cases hc : id = c <;> simp [hc]

theorem count_single_open (id c : ℕ) :
    List.count (ResEvent.openEv id) [ResEvent.openEv c] = if id = c then 1 else 0 := by
  by_cases hc : id = c <;> simp [hc]

theorem count_single_close_of_open (id c : ℕ) :
    List.count (ResEvent.closeEv id) [ResEvent.openEv c] = 0 := by
  simp

theorem rampAttempt_inv (target : Int) (o p : Bool) (st : RampState)
    (hlt : (st.currentCount : Int) < target) (h : RampInv target st) :
    RampInv target (rampAttempt o p st) := by
  obtain ⟨h1, h2, h3, h4, h5, h6, h7, h8⟩ := h
  have hcnotin : st.counter ∉ st.conns := fun hc => absurd (h3 st.counter hc) (lt_irrefl _)
  have hlen : (st.conns.length : Int) < target := by
    rw [← h5]; exact_mod_cast hlt
  have hmax : target ≤ max target 0 := le_max_left _ _
  have hlive : (opensTotal st.events : Int) - (closesTotal st.events : Int)
      = st.conns.length := by omega
  cases o with
  | false => simpa [rampAttempt] using ⟨h1, h2, h3, h4, h5, h6, h7, h8⟩
  | true =>
    cases p with
    | false =>
      simp only [rampAttempt, Bool.not_true, Bool.not_false, Bool.false_eq_true,
        if_false, if_true]
      refine ⟨?_, ?_, ?_, h4, h5, ?_, ?_, ?_⟩
      · intro id
        dsimp only
        simp only [openCount] at h1 ⊢
        rw [List.count_append, h1 id, count_pair_open]
        split_ifs <;> omega
      · intro id
        dsimp only
        simp only [closeCount] at h2 ⊢
        rw [List.count_append, h2 id, count_pair_close]
        by_cases hc : id = st.counter
        · subst hc
          have hx : ¬(st.counter < st.counter ∧ st.counter ∉ st.conns) :=
            fun hh => absurd hh.1 (lt_irrefl _)
          rw [if_neg hx, if_pos rfl, if_pos ⟨Nat.lt_succ_self _, hcnotin⟩]
        · have hcond : (id < st.counter ∧ id ∉ st.conns)
              ↔ (id < st.counter + 1 ∧ id ∉ st.conns) := by
            constructor
            · rintro ⟨hh, hp⟩; exact ⟨by omega, hp⟩
            · rintro ⟨hh, hp⟩; exact ⟨by omega, hp⟩
          rw [if_neg hc, if_congr hcond rfl rfl]
          simp
      · intro id hid
        dsimp only at hid ⊢
        exact Nat.lt_succ_of_lt (h3 id hid)
      · dsimp only
        rw [opensTotal_append, h6]
        simp [opensTotal]
      · dsimp only
        rw [closesTotal_append]
        have hpaircl : closesTotal [ResEvent.openEv st.counter, ResEvent.closeEv st.counter]
            = 1 := by simp [closesTotal]
        omega
      · dsimp only
        apply prefixLiveBound_append _ _ _ h8
        intro p' t' hp'
        cases p' with
        | nil =>
          rw [show opensTotal ([] : List ResEvent) = 0 from rfl,
            show closesTotal ([] : List ResEvent) = 0 from rfl]
          omega
        | cons a as =>
          simp only [List.cons_append] at hp'
          have hinj : ResEvent.openEv st.counter = a
              ∧ [ResEvent.closeEv st.counter] = as ++ t' := by
            injection hp' with hh1 hh2
            exact ⟨hh1, hh2⟩
          obtain ⟨rfl, hrest⟩ := hinj
          cases as with
          | nil =>
            rw [show opensTotal [ResEvent.openEv st.counter] = 1 from rfl,
              show closesTotal [ResEvent.openEv st.counter] = 0 from rfl]
            omega
          | cons b bs =>
            have hinj2 : ResEvent.closeEv st.counter = b ∧ bs ++ t' = [] := by
              injection hrest with hh1 hh2
              exact ⟨hh1, hh2.symm⟩
            obtain ⟨rfl, hbs⟩ := hinj2
            have hbsnil : bs = [] := (List.append_eq_nil.mp hbs).1
            subst hbsnil
            rw [show opensTotal [ResEvent.openEv st.counter, ResEvent.closeEv st.counter]
                = 1 from rfl,
              show closesTotal [ResEvent.openEv st.counter, ResEvent.closeEv st.counter]
                = 1 from rfl]
            omega
    | true =>
      simp only [rampAttempt, Bool.not_true, Bool.false_eq_true, if_false]
      refine ⟨?_, ?_, ?_, ?_, ?_, ?_, ?_, ?_⟩
      · intro id
        dsimp only
        simp only [openCount] at h1 ⊢
        rw [List.count_append, h1 id, count_single_open]
        split_ifs <;> omega
      · intro id
        dsimp only
        simp only [closeCount] at h2 ⊢
        rw [List.count_append, h2 id, count_single_close_of_open]
        by_cases hc : id = st.counter
        · subst hc
          have hmem : st.counter ∈ st.conns ++ [st.counter] := by simp
          have hx : ¬(st.counter < st.counter ∧ st.counter ∉ st.conns) :=
            fun hh => absurd hh.1 (lt_irrefl _)
          rw [if_neg hx, if_neg (fun hh => hh.2 hmem)]
        · have hcond : (id < st.counter ∧ id ∉ st.conns)
              ↔ (id < st.counter + 1 ∧ id ∉ st.conns ++ [st.counter]) := by
            constructor
            · rintro ⟨hh, hp⟩
              refine ⟨by omega, ?_⟩
              intro hmem
              rcases List.mem_append.mp hmem with hm | hm
              · exact hp hm
              · simp at hm; exact hc hm
            · rintro ⟨hh, hp⟩
              exact ⟨by omega, fun hm => hp (List.mem_append.mpr (Or.inl hm))⟩
          rw [if_congr hcond rfl rfl]
          simp
      · intro id hid
        dsimp only at hid ⊢
        rcases List.mem_append.mp hid with hm | hm
        · exact Nat.lt_succ_of_lt (h3 id hm)
        · simp at hm; omega
      · dsimp only
        rw [List.nodup_append]
        refine ⟨h4, by simp, ?_⟩
        intro a ha hb
        simp at hb
        subst hb
        exact hcnotin ha
      · dsimp only
        simp [h5]
      · dsimp only
        rw [opensTotal_append, h6]
        simp [opensTotal]
      · dsimp only
        rw [closesTotal_append]
        have hone : closesTotal [ResEvent.openEv st.counter] = 0 := by simp [closesTotal]
        simp only [List.length_append, List.length_singleton]
        omega
      · dsimp only
        apply prefixLiveBound_append _ _ _ h8
        intro p' t' hp'
        cases p' with
        | nil =>
          rw [show opensTotal ([] : List ResEvent) = 0 from rfl,
            show closesTotal ([] : List ResEvent) = 0 from rfl]
          omega
        | cons a as =>
          simp only [List.cons_append] at hp'
          have hinj : ResEvent.openEv st.counter = a ∧ as ++ t' = [] := by
            injection hp' with hh1 hh2
            exact ⟨hh1, hh2.symm⟩
          obtain ⟨rfl, hbs⟩ := hinj
          have hasnil : as = [] := (List.append_eq_nil.mp hbs).1
          subst hasnil
          rw [show opensTotal [ResEvent.openEv st.counter] = 1 from rfl,
            show closesTotal [ResEvent.openEv st.counter] = 0 from rfl]
          omega

theorem rampTick_inv (target : Int) (ds : List (Bool × Bool)) :
    ∀ st, RampInv target st → RampInv target (rampTick target ds st) := by
  induction ds with
  | nil => intro st h; exact h
  | cons d ds ih =>
    intro st h
    by_cases hlt : (st.currentCount : Int) < target
    · rw [show rampTick target (d :: ds) st
          = rampTick target ds (rampAttempt d.1 d.2 st) by simp [rampTick, hlt]]
      exact ih _ (rampAttempt_inv target d.1 d.2 st hlt h)
    · rw [show rampTick target (d :: ds) st = st by simp [rampTick, hlt]]
      exact h

theorem rampLoop_inv (target : Int) (inc : ℕ) (steps : List RampStep) :
    ∀ st, RampInv target st → RampInv target (rampLoop target inc steps st) := by
  induction steps with
  | nil => intro st h; exact h
  | cons s rest ih =>
    intro st h
    cases s with
    | idle expired =>
      by_cases he : expired = true
      · simp [rampLoop, he]; exact h
      · have : expired = false := by simp at he; exact he
        subst this
        simp only [rampLoop, if_false, Bool.false_eq_true]
        exact ih st h
    | tick draws expiredAfter =>
      have h2 := rampTick_inv target (draws.take inc) st h
      by_cases hge : ((rampTick target (draws.take inc) st).currentCount : Int) ≥ target
      · simp only [rampLoop, if_pos hge]
        exact h2
      · by_cases hexp : expiredAfter = true
        · simp only [rampLoop, if_neg hge, hexp, if_true]
          exact h2
        · have hexp' : expiredAfter = false := by simp at hexp; exact hexp
          subst hexp'
          simp only [rampLoop, if_neg hge, Bool.false_eq_true, if_false]
          exact ih _ h2

theorem shapeC_final_inv (target : Int) (inc : ℕ) (steps : List RampStep) :
    RampInv target (rampLoop target inc steps initialRampState) :=
  rampLoop_inv target inc steps initialRampState (rampInv_initial target)

theorem count_closeEv_map (conns : List ℕ) (id : ℕ) :
    (conns.map ResEvent.closeEv).count (ResEvent.closeEv id) = conns.count id :=
  List.count_map_of_injective conns ResEvent.closeEv (fun a b hab => by injection hab) id

theorem count_openEv_map_close (conns : List ℕ) (id : ℕ) :
    (conns.map ResEvent.closeEv).count (ResEvent.openEv id) = 0 := by
  rw [List.count_eq_zero]
  intro hmem
  simp [List.mem_map] at hmem

theorem opensTotal_all_close (p' : List ResEvent)
    (h : ∀ e ∈ p', ∃ x, ResEvent.closeEv x = e) : opensTotal p' = 0 := by
  apply List.countP_eq_zero.mpr
  intro a ha
  obtain ⟨x, hx⟩ := h a ha
  subst hx
  simp

/-- C4: in both Shape B (fan-out workers) and Shape C (ramp-up then hold),
every resource whose open succeeded receives exactly one close over the
whole trace — on every exit path, a per-worker setup failure included — and
no resource is opened twice, so none is left unclosed and none is closed
twice. -/
theorem c4_resource_teardown (n : ℕ) (openOk pingOk : ℕ → Bool) (work : ℕ → ℕ)
    (target : Int) (inc : ℕ) (steps : List RampStep) :
    (∀ id, openCount (multiHeavyRun n openOk pingOk work) id ≤ 1 ∧
      closeCount (multiHeavyRun n openOk pingOk work) id
        = openCount (multiHeavyRun n openOk pingOk work) id) ∧
    (∀ id, openCount (shapeCRun target inc steps) id ≤ 1 ∧
      closeCount (shapeCRun target inc steps) id
        = openCount (shapeCRun target inc steps) id) := by
  constructor
  · intro id
    obtain ⟨hcl, hle, _⟩ := multiHeavyRun_counts openOk pingOk work id n
    exact ⟨hle, hcl⟩
  · intro id
    obtain ⟨h1, h2, h3, h4, _, _, _, _⟩ := shapeC_final_inv target inc steps
    unfold shapeCRun
    simp only [openCount, closeCount] at h1 h2 ⊢
    rw [List.count_append, List.count_append, count_openEv_map_close,
      count_closeEv_map, h1 id, h2 id, add_zero]
    set st := rampLoop target inc steps initialRampState with hst
    by_cases hm : id ∈ st.conns
    · have hcnt : st.conns.count id = 1 := List.count_eq_one_of_mem h4 hm
      have hlt : id < st.counter := h3 id hm
      rw [hcnt, if_pos hlt, if_neg (fun hh => hh.2 hm)]
      omega
    · have hcnt : st.conns.count id = 0 := List.count_eq_zero_of_not_mem hm
      rw [hcnt]
      by_cases hlt : id < st.counter
      · rw [if_pos hlt, if_pos ⟨hlt, hm⟩]
        omega
      · rw [if_neg hlt, if_neg (fun hh => hlt hh.1)]
        omega

theorem rampAttempt_opens (o p : Bool) (st : RampState) :
    opensTotal (rampAttempt o p st).events ≤ opensTotal st.events + 1 := by
  cases o with
  | false =>
    rw [show rampAttempt false p st = st by simp [rampAttempt]]
    omega
  | true =>
    cases p with
    | false =>
      simp only [rampAttempt, Bool.not_true, Bool.not_false, Bool.false_eq_true,
        if_false, if_true]
      rw [opensTotal_append,
        show opensTotal [ResEvent.openEv st.counter, ResEvent.closeEv st.counter]
          = 1 from rfl]
    | true =>
      simp only [rampAttempt, Bool.not_true, Bool.false_eq_true, if_false]
      rw [opensTotal_append, show opensTotal [ResEvent.openEv st.counter] = 1 from rfl]

theorem rampTick_opens (target : Int) (ds : List (Bool × Bool)) :
    ∀ st, opensTotal (rampTick target ds st).events ≤ opensTotal st.events + ds.length := by
  induction ds with
  | nil => intro st; simp [rampTick]
  | cons d ds ih =>
    intro st
    by_cases hlt : (st.currentCount : Int) < target
    · rw [show rampTick target (d :: ds) st
          = rampTick target ds (rampAttempt d.1 d.2 st) by simp [rampTick, hlt]]
      have ha := rampAttempt_opens d.1 d.2 st
      have hb := ih (rampAttempt d.1 d.2 st)
      simp only [List.length_cons]
      omega
    · rw [show rampTick target (d :: ds) st = st by simp [rampTick, hlt]]
      simp

/-- C5: Shape C never holds more than `targetCount` resources open at any
point of the trace; one interval tick opens at most `increasePerInterval`
resources; and a failed open (or failed ping) is skipped — the attempt
leaves the count and the held list unchanged, the remaining attempts of the
tick still run, and the run is not aborted. -/
theorem c5_rampup_bounds (target : Int) (inc : ℕ) (steps : List RampStep)
    (htarget : 0 ≤ target) :
    (∀ p t, shapeCRun target inc steps = p ++ t →
      (opensTotal p : Int) - (closesTotal p : Int) ≤ target) ∧
    (∀ draws : List (Bool × Bool), ∀ st : RampState,
      opensTotal (rampTick target (draws.take inc) st).events
        ≤ opensTotal st.events + inc) ∧
    (∀ b : Bool, ∀ ds : List (Bool × Bool), ∀ st : RampState,
      (st.currentCount : Int) < target →
      rampTick target ((false, b) :: ds) st = rampTick target ds st) ∧
    (∀ st : RampState, (rampAttempt true false st).currentCount = st.currentCount ∧
      (rampAttempt true false st).conns = st.conns) := by
  have hmaxeq : max target 0 = target := max_eq_left htarget
  refine ⟨?_, ?_, ?_, ?_⟩
  · obtain ⟨h1, h2, h3, h4, h5, h6, h7, h8⟩ := shapeC_final_inv target inc steps
    set st := rampLoop target inc steps initialRampState with hst
    intro p t hpt
    rw [← hmaxeq]
    refine prefixLiveBound_append st.events (st.conns.map ResEvent.closeEv)
      (max target 0) h8 ?_ p t hpt
    intro p' t' hp'
    have hlive : (opensTotal st.events : Int) - (closesTotal st.events : Int)
        = st.conns.length := by omega
    have hlen : (st.conns.length : Int) ≤ max target 0 := by
      have := h8 st.events [] (by simp)
      omega
    have hop : opensTotal p' = 0 := by
      apply opensTotal_all_close
      intro e he
      have : e ∈ st.conns.map ResEvent.closeEv := by
        rw [hp']
        exact List.mem_append.mpr (Or.inl he)
      obtain ⟨x, _, hx⟩ := List.mem_map.mp this
      exact ⟨x, hx⟩
    rw [hop]
    have : (0 : Int) ≤ closesTotal p' := by positivity
    omega
  · intro draws st
    have h := rampTick_opens target (draws.take inc) st
    have hlen : (draws.take inc).length ≤ inc := by
      simp [List.length_take]
    omega
  · intro b ds st h
    simp [rampTick, rampAttempt, h]
  · intro st
    exact ⟨rfl, rfl⟩

/-- C5 witness: concrete target 3, increase 2, and a one-tick schedule. -/
theorem c5_witness :
    (∀ p t, shapeCRun 3 2 [RampStep.tick [(true, true)] true] = p ++ t →
      (opensTotal p : Int) - (closesTotal p : Int) ≤ 3) ∧
    (∀ draws : List (Bool × Bool), ∀ st : RampState,
      opensTotal (rampTick 3 (draws.take 2) st).events
        ≤ opensTotal st.events + 2) ∧
    (∀ b : Bool, ∀ ds : List (Bool × Bool), ∀ st : RampState,
      (st.currentCount : Int) < 3 →
      rampTick 3 ((false, b) :: ds) st = rampTick 3 ds st) ∧
    (∀ st : RampState, (rampAttempt true false st).currentCount = st.currentCount ∧
      (rampAttempt true false st).conns = st.conns) :=
  c5_rampup_bounds 3 2 [RampStep.tick [(true, true)] true] (by norm_num)

theorem filterMap_lits (s : List Char) :
    ((s.map fun ch => LogSeg.lit [ch]).filterMap fun seg =>
      match seg with
      | LogSeg.ph content => some (placeholderKey (String.mk (trimBraces content)))
      | LogSeg.lit _ => none) = [] := by
  induction s with
  | nil => rfl
  | cons a t ih =>
    simp only [List.map_cons, List.filterMap_cons]
    exact ih

theorem extractL_nobrace (s t : List Char) (h : ∀ c ∈ s, c ≠ '\x7b') :
    extractKeysL (s ++ t) = extractKeysL t := by
  unfold extractKeysL
  rw [scanSegsAux_none_append s t h, List.filterMap_append, filterMap_lits]
  rfl

theorem extractL_ph (body t : List Char) (h1 : body ≠ []) (h2 : braceFreeL body) :
    extractKeysL ('\x7b' :: (body ++ '\x7d' :: t))
      = placeholderKey (String.mk body) :: extractKeysL t := by
  unfold extractKeysL
  rw [scanSegs_placeholder body t h1 (fun ch hch => by
    have hb := h2 ch hch
    simp [isBraceChar] at hb
    exact hb.2)]
  simp only [List.filterMap_cons]
  rw [trimBraces_id body h2]

theorem extract_part_append (s : String) (k : Option String) (h : PartSpec s k)
    (suffix : List Char) :
    extractKeysL (s.data ++ suffix) = k.toList ++ extractKeysL suffix := by
  cases h with
  | dash =>
    have hnb : ∀ c ∈ ("-" : String).data, c ≠ '\x7b' := by decide
    rw [extractL_nobrace _ suffix hnb]
    rfl
  | tok w1 body w2 k hb1 hb2 hb3 hne hkey =>
    have hw1 : ∀ c ∈ w1, c ≠ '\x7b' := fun c hc => by
      have hb := hb1 c hc
      simp [isBraceChar] at hb
      exact hb.1
    have hw2 : ∀ c ∈ w2, c ≠ '\x7b' := fun c hc => by
      have hb := hb3 c hc
      simp [isBraceChar] at hb
      exact hb.1
    show extractKeysL ((w1 ++ '\x7b' :: (body ++ '\x7d' :: w2)) ++ suffix) = _
    have hinner : (w1 ++ '\x7b' :: (body ++ '\x7d' :: w2)) ++ suffix
        = w1 ++ ('\x7b' :: (body ++ '\x7d' :: (w2 ++ suffix))) := by simp
    rw [hinner, extractL_nobrace w1 _ hw1, extractL_ph body _ hne hb2,
      extractL_nobrace w2 suffix hw2, hkey]
    rfl

theorem extract_join : ∀ (parts : List String) (ks : List (Option String)),
    List.Forall₂ PartSpec parts ks →
    extractKeys (goJoin (" ") parts) = ks.filterMap id := by
  intro parts
  induction parts with
  | nil => intro ks h; cases h; rfl
  | cons p ps ih =>
    intro ks h
    cases h with
    | cons hpk htail =>
      cases ps with
      | nil =>
        cases htail
        show extractKeys p = _
        unfold extractKeys
        have hp := extract_part_append p _ hpk []
        rw [List.append_nil] at hp
        rw [hp]
        cases hpk <;> rfl
      | cons q qs =>
        show extractKeys (p ++ " " ++ goJoin (" ") (q :: qs)) = _
        unfold extractKeys
        have hdata : (p ++ " " ++ goJoin (" ") (q :: qs)).data
            = p.data ++ (' ' :: (goJoin (" ") (q :: qs)).data) := by
          show (p.data ++ (" " : String).data) ++ (goJoin (" ") (q :: qs)).data = _
          simp
        rw [hdata, extract_part_append p _ hpk _]
        have hsp : extractKeysL (' ' :: (goJoin (" ") (q :: qs)).data)
            = extractKeysL (goJoin (" ") (q :: qs)).data := by
          have hnb : ∀ c ∈ [' '], c ≠ '\x7b' := by decide
          exact extractL_nobrace [' '] _ hnb
        rw [hsp]
        have ihq := ih _ htail
        unfold extractKeys at ihq
        rw [ihq]
        cases hpk <;> rfl

theorem buildParts_spec (r : FmtRand) (toks ks : List String)
    (h : List.Forall₂ (fun t k => PartSpec t (some k)) toks ks) :
    ∀ i, ∃ ks', List.Forall₂ PartSpec (buildParts r i toks) ks'
      ∧ ks'.filterMap id = ks := by
  induction h with
  | nil => intro i; exact ⟨[], List.Forall₂.nil, rfl⟩
  | @cons t k ts kst hpk htail ih =>
    intro i
    obtain ⟨ks', h1, h2⟩ := ih (i + 1)
    by_cases hd : r.dashFloat i < 3/10
    · refine ⟨some k :: none :: ks', ?_, ?_⟩
      · rw [show buildParts r i (t :: ts) = t :: "-" :: buildParts r (i + 1) ts by
          simp [buildParts, hd]]
        exact List.Forall₂.cons hpk (List.Forall₂.cons PartSpec.dash h1)
      · simp [h2]
    · refine ⟨some k :: ks', ?_, ?_⟩
      · rw [show buildParts r i (t :: ts) = t :: buildParts r (i + 1) ts by
          simp [buildParts, hd]]
        exact List.Forall₂.cons hpk h1
      · simp [h2]

theorem partSpec_affix (a b s : String) (k : String) (body : List Char)
    (hd : s.data = '\x7b' :: (body ++ ['\x7d']))
    (hb : braceFreeL body) (hne : body ≠ [])
    (hkey : placeholderKey (String.mk body) = k)
    (ha : braceFreeL a.data) (hbb : braceFreeL b.data) :
    PartSpec (a ++ s ++ b) (some k) := by
  have hdat : (a ++ s ++ b).data = a.data ++ '\x7b' :: (body ++ '\x7d' :: b.data) := by
    show (a.data ++ s.data) ++ b.data = _
    rw [hd]
    simp
  have heq : a ++ s ++ b = String.mk (a.data ++ '\x7b' :: (body ++ '\x7d' :: b.data)) := by
    rw [show a ++ s ++ b = String.mk ((a ++ s ++ b).data) from rfl, hdat]
  rw [heq]
  exact PartSpec.tok a.data body b.data k ha hb hbb hne hkey

theorem partSpec_wrap (r : FmtRand) (i : ℕ) (s : String) (k : String)
    (body : List Char)
    (hd : s.data = '\x7b' :: (body ++ ['\x7d']))
    (hb : braceFreeL body) (hne : body ≠ [])
    (hkey : placeholderKey (String.mk body) = k) :
    PartSpec (wrapToken r i s) (some k) := by
  unfold wrapToken
  split_ifs with hw
  · have h3 : r.wrapDraw i % 3 < 3 := Nat.mod_lt _ (by norm_num)
    set m := r.wrapDraw i % 3 with hm
    interval_cases m
    · exact partSpec_affix ("\"") ("\"") s k body hd hb hne hkey (by unfold braceFreeL; decide) (by unfold braceFreeL; decide)
    · exact partSpec_affix ("\x27") ("\x27") s k body hd hb hne hkey (by unfold braceFreeL; decide) (by unfold braceFreeL; decide)
    · exact partSpec_affix ("[") ("]") s k body hd hb hne hkey (by unfold braceFreeL; decide) (by unfold braceFreeL; decide)
  · have hs : s = ("" : String) ++ s ++ ("" : String) := by
      apply congrArg String.mk
      show s.data = ([] ++ s.data) ++ []
      simp
    rw [hs]
    exact partSpec_affix ("") ("") s k body hd hb hne hkey (by unfold braceFreeL; decide) (by unfold braceFreeL; decide)

theorem breakAtColon_mid (name : List Char) :
    ∀ rest : List Char, (∀ c ∈ name, c ≠ ':') →
    breakAtColon (name ++ ':' :: rest) = (name, some rest) := by
  induction name with
  | nil => intro rest _; simp [breakAtColon]
  | cons c t ih =>
    intro rest h
    have hc : c ≠ ':' := h c (by simp)
    show breakAtColon (c :: (t ++ ':' :: rest)) = (c :: t, some rest)
    have step : breakAtColon (c :: (t ++ ':' :: rest)) =
        (c :: (breakAtColon (t ++ ':' :: rest)).1, (breakAtColon (t ++ ':' :: rest)).2) := by
      simp only [breakAtColon, if_neg hc]
    rw [step, ih rest (fun d hd => h d (by simp [hd]))]

theorem breakAtColon_none (l : List Char) (h : ∀ c ∈ l, c ≠ ':') :
    breakAtColon l = (l, none) := by
  induction l with
  | nil => rfl
  | cons c t ih =>
    have hc : c ≠ ':' := h c (by simp)
    have step : breakAtColon (c :: t) =
        (c :: (breakAtColon t).1, (breakAtColon t).2) := by
      simp only [breakAtColon, if_neg hc]
    rw [step, ih (fun d hd => h d (by simp [hd]))]

theorem placeholderKey_colon (name : String) (rest : List Char)
    (h : ∀ c ∈ name.data, c ≠ ':') :
    placeholderKey (String.mk (name.data ++ ':' :: rest))
      = goToLower (trimSpace name) := by
  unfold placeholderKey
  rw [show (String.mk (name.data ++ ':' :: rest)).data = name.data ++ ':' :: rest from rfl,
    breakAtColon_mid name.data rest h]

theorem placeholderKey_plain (name : String) (h : ∀ c ∈ name.data, c ≠ ':') :
    placeholderKey name = goToLower (trimSpace name) := by
  unfold placeholderKey
  rw [breakAtColon_none name.data h]

theorem count_set_aux (l : List String) (n : ℕ) (b : String) (h : n < l.length) (x : String) :
    (l.set n b).count x + (if l.get ⟨n, h⟩ = x then 1 else 0)
      = l.count x + (if b = x then 1 else 0) := by
  have hsplit : l = l.take n ++ l.get ⟨n, h⟩ :: l.drop (n + 1) := by
    conv_lhs => rw [← List.take_append_drop n l]
    rw [List.drop_eq_getElem_cons h, List.get_eq_getElem]
  rw [List.set_eq_take_cons_drop b h]
  conv_rhs => rw [hsplit]
  simp only [List.count_append, List.count_cons, beq_iff_eq]
  omega

theorem swapAt_count (l : List String) (i j : ℕ) (x : String) :
    (swapAt l i j).count x = l.count x := by
  unfold swapAt
  cases hgi : l.get? i with
  | none => rfl
  | some a =>
    cases hgj : l.get? j with
    | none => rfl
    | some b =>
      show ((l.set i b).set j a).count x = l.count x
      obtain ⟨hi, hai⟩ := List.get?_eq_some.1 hgi
      obtain ⟨hj, hbj⟩ := List.get?_eq_some.1 hgj
      have hj' : j < (l.set i b).length := by rw [List.length_set]; exact hj
      have hb2 : (l.set i b).get ⟨j, hj'⟩ = b := by
        by_cases hij : i = j
        · subst hij
          simp [List.get_eq_getElem]
        · rw [List.get_eq_getElem]
          rw [List.getElem_set_ne hij]
          exact (List.get_eq_getElem l ⟨j, hj⟩).symm.trans hbj
      have e1 := count_set_aux (l.set i b) j a hj' x
      have e2 := count_set_aux l i b hi x
      rw [hb2] at e1
      rw [hai] at e2
      omega

theorem swapAt_perm (l : List String) (i j : ℕ) : (swapAt l i j).Perm l :=
  List.perm_iff_count.mpr (swapAt_count l i j)

theorem shuffleSteps_perm (r : FmtRand) (l : List String) : (shuffleSteps r l).Perm l := by
  unfold shuffleSteps
  generalize (List.range' 1 (l.length - 1)).reverse = idxs
  induction idxs generalizing l with
  | nil => exact List.Perm.refl l
  | cons i t ih =>
    simp only [List.foldl_cons]
    exact (ih (swapAt l i (r.shuffleDraw i % (i + 1)))).trans
      (swapAt_perm l i (r.shuffleDraw i % (i + 1)))

theorem optPool_mem (n : ℕ) : optionalPlaceholders.getD (n % 5) "" ∈ optionalPlaceholders := by
  have h5 : n % 5 < 5 := Nat.mod_lt _ (by norm_num)
  set m := n % 5 with hm
  interval_cases m <;> decide

theorem addOptLoop_spec (r : FmtRand) (count : ℕ) :
    ∃ extra : List String,
      addOptLoop r count requiredPlaceholders = requiredPlaceholders ++ extra
      ∧ (∀ x ∈ extra, x ∈ optionalPlaceholders) ∧ extra.Nodup ∧ extra.length ≤ count := by
  induction count with
  | zero =>
    exact ⟨[], by simp [addOptLoop], by simp, List.nodup_nil, Nat.le_refl 0⟩
  | succ n ih =>
    obtain ⟨extra, heq, hsub, hnd, hlen⟩ := ih
    have hstep : addOptLoop r (n + 1) requiredPlaceholders =
        (let opt := optionalPlaceholders.getD (r.optPick n % 5) ""
         let acc := addOptLoop r n requiredPlaceholders
         let already := acc.any fun p => goEqualFold p opt
         if !already && acc.length < 7 then acc ++ [opt] else acc) := by
      unfold addOptLoop
      rw [List.range_succ, List.foldl_append, List.foldl_cons, List.foldl_nil]
    rw [hstep]
    set opt := optionalPlaceholders.getD (r.optPick n % 5) "" with hopt
    rw [heq]
    by_cases hcase : (!(requiredPlaceholders ++ extra).any fun p => goEqualFold p opt)
        && (requiredPlaceholders ++ extra).length < 7
    · rw [if_pos hcase]
      have hnotin : opt ∉ extra := by
        intro hmem
        have hany : ((requiredPlaceholders ++ extra).any fun p => goEqualFold p opt) = true := by
          rw [List.any_eq_true]
          exact ⟨opt, by simp [hmem], by simp [goEqualFold]⟩
        simp [hany] at hcase
      refine ⟨extra ++ [opt], by rw [List.append_assoc], ?_, ?_, ?_⟩
      · intro x hx
        rcases List.mem_append.1 hx with h | h
        · exact hsub x h
        · rw [List.mem_singleton.1 h, hopt]
          exact optPool_mem _
      · simp [List.nodup_append, hnd, hnotin]
      · rw [List.length_append]
        simpa using Nat.add_le_add hlen (Nat.le_refl 1)
    · rw [if_neg hcase]
      exact ⟨extra, rfl, hsub, hnd, Nat.le_succ_of_le hlen⟩

theorem braceFreeL_append {a b : List Char} (ha : braceFreeL a) (hb : braceFreeL b) :
    braceFreeL (a ++ b) := by
  intro c hc
  rcases List.mem_append.1 hc with h | h
  · exact ha c h
  · exact hb c h

theorem timeFormat_braceFree (draw : ℕ) : braceFreeL (generateRandomTimeFormat draw).data := by
  have h4 : draw % 4 < 4 := Nat.mod_lt _ (by norm_num)
  unfold generateRandomTimeFormat
  set m := draw % 4 with hm
  interval_cases m <;> decide

theorem partSpec_wrap_concrete (r : FmtRand) (i : ℕ) (s : String) (k : String)
    (hd : s.data = '\x7b' :: ((s.data.drop 1).dropLast ++ ['\x7d']))
    (hb : braceFreeL ((s.data.drop 1).dropLast))
    (hne : (s.data.drop 1).dropLast ≠ [])
    (hkey : placeholderKey (String.mk ((s.data.drop 1).dropLast)) = k) :
    PartSpec (wrapToken r i s) (some k) :=
  partSpec_wrap r i s k ((s.data.drop 1).dropLast) hd hb hne hkey

theorem token_spec (r : FmtRand) (i : ℕ) (ph : String)
    (h : ph ∈ requiredPlaceholders ∨ ph ∈ optionalPlaceholders) :
    PartSpec (wrapToken r i (phToken r i ph)) (some ph) := by
  have h10 : ph = "time" ∨ ph = "status_code" ∨ ph = "method" ∨ ph = "path"
      ∨ ph = "client_ip" ∨ ph = "latency" ∨ ph = "user_agent" ∨ ph = "protocol"
      ∨ ph = "request_size" ∨ ph = "response_size" := by
    rcases h with h | h
    · simp [requiredPlaceholders] at h
      tauto
    · simp [optionalPlaceholders] at h
      tauto
  rcases h10 with rfl | rfl | rfl | rfl | rfl | rfl | rfl | rfl | rfl | rfl
  · by_cases ht : r.timeUnitFloat i < 1/2
    · rw [show phToken r i ("time") = if r.timeUnitFloat i < 1/2 then
            "\x7btime:" ++ generateRandomTimeFormat (r.sepDraw i) ++ "\x7d"
          else "\x7btime\x7d" from rfl, if_pos ht]
      refine partSpec_wrap r i _ ("time")
        ('t' :: 'i' :: 'm' :: 'e' :: ':' :: (generateRandomTimeFormat (r.sepDraw i)).data)
        rfl ?_ (by simp) ?_
      · exact braceFreeL_append (a := ['t', 'i', 'm', 'e', ':']) (by decide)
          (timeFormat_braceFree _)
      · exact (placeholderKey_colon ("time") (generateRandomTimeFormat (r.sepDraw i)).data
          (by decide)).trans (by decide)
    · rw [show phToken r i ("time") = if r.timeUnitFloat i < 1/2 then
            "\x7btime:" ++ generateRandomTimeFormat (r.sepDraw i) ++ "\x7d"
          else "\x7btime\x7d" from rfl, if_neg ht]
      exact partSpec_wrap_concrete r i _ _ (by decide) (by decide) (by decide) (by decide)
  · rw [show phToken r i ("status_code") = "\x7bstatus_code\x7d" from rfl]
    exact partSpec_wrap_concrete r i _ _ (by decide) (by decide) (by decide) (by decide)
  · rw [show phToken r i ("method") = "\x7bmethod\x7d" from rfl]
    exact partSpec_wrap_concrete r i _ _ (by decide) (by decide) (by decide) (by decide)
  · rw [show phToken r i ("path") = "\x7bpath\x7d" from rfl]
    exact partSpec_wrap_concrete r i _ _ (by decide) (by decide) (by decide) (by decide)
  · rw [show phToken r i ("client_ip") = "\x7bclient_ip\x7d" from rfl]
    exact partSpec_wrap_concrete r i _ _ (by decide) (by decide) (by decide) (by decide)
  · rw [show phToken r i ("latency")
        = "\x7blatency:" ++ latencyUnits.getD (r.unitDraw i % 4) "" ++ "\x7d" from rfl]
    have h4 : r.unitDraw i % 4 < 4 := Nat.mod_lt _ (by norm_num)
    set m := r.unitDraw i % 4 with hm
    interval_cases m <;>
      exact partSpec_wrap_concrete r i _ _ (by decide) (by decide) (by decide) (by decide)
  · rw [show phToken r i ("user_agent") = "\x7buser_agent\x7d" from rfl]
    exact partSpec_wrap_concrete r i _ _ (by decide) (by decide) (by decide) (by decide)
  · rw [show phToken r i ("protocol") = "\x7bprotocol\x7d" from rfl]
    exact partSpec_wrap_concrete r i _ _ (by decide) (by decide) (by decide) (by decide)
  · rw [show phToken r i ("request_size")
        = "\x7brequest_size:" ++ sizeUnits.getD (r.unitDraw i % 4) "" ++ "\x7d" from rfl]
    have h4 : r.unitDraw i % 4 < 4 := Nat.mod_lt _ (by norm_num)
    set m := r.unitDraw i % 4 with hm
    interval_cases m <;>
      exact partSpec_wrap_concrete r i _ _ (by decide) (by decide) (by decide) (by decide)
  · rw [show phToken r i ("response_size")
        = "\x7bresponse_size:" ++ sizeUnits.getD (r.unitDraw i % 4) "" ++ "\x7d" from rfl]
    have h4 : r.unitDraw i % 4 < 4 := Nat.mod_lt _ (by norm_num)
    set m := r.unitDraw i % 4 with hm
    interval_cases m <;>
      exact partSpec_wrap_concrete r i _ _ (by decide) (by decide) (by decide) (by decide)

theorem decorate_forall (r : FmtRand) : ∀ names : List String,
    (∀ ph ∈ names, ph ∈ requiredPlaceholders ∨ ph ∈ optionalPlaceholders) →
    ∀ i, List.Forall₂ (fun t k => PartSpec t (some k)) (decorate r i names) names := by
  intro names
  induction names with
  | nil =>
    intro _ i
    exact List.Forall₂.nil
  | cons ph ps ih =>
    intro h i
    exact List.Forall₂.cons (token_spec r i ph (h ph (by simp)))
      (ih (fun q hq => h q (by simp [hq])) (i + 1))

theorem extractKeys_generate (r : FmtRand) :
    extractKeys (generateRandomGlobalLogFormat r)
      = shuffleSteps r (addOptLoop r (r.optCountDraw % 3) requiredPlaceholders) := by
  obtain ⟨extra, heq, hsub, hnd, hlen⟩ := addOptLoop_spec r (r.optCountDraw % 3)
  have h1 := shuffleSteps_perm r (addOptLoop r (r.optCountDraw % 3) requiredPlaceholders)
  have hperm : (shuffleSteps r (addOptLoop r (r.optCountDraw % 3) requiredPlaceholders)).Perm
      (requiredPlaceholders ++ extra) := by
    refine h1.trans ?_
    rw [heq]
  have hmem : ∀ ph ∈ shuffleSteps r (addOptLoop r (r.optCountDraw % 3) requiredPlaceholders),
      ph ∈ requiredPlaceholders ∨ ph ∈ optionalPlaceholders := by
    intro ph hph
    rcases List.mem_append.1 (hperm.mem_iff.1 hph) with h | h
    · exact Or.inl h
    · exact Or.inr (hsub ph h)
  obtain ⟨ks', hks, hfil⟩ := buildParts_spec r
    (decorate r 0 (shuffleSteps r (addOptLoop r (r.optCountDraw % 3) requiredPlaceholders)))
    (shuffleSteps r (addOptLoop r (r.optCountDraw % 3) requiredPlaceholders))
    (decorate_forall r _ hmem 0) 0
  show extractKeys (goJoin (" ") (buildParts r 0 (decorate r 0
    (shuffleSteps r (addOptLoop r (r.optCountDraw % 3) requiredPlaceholders))))) = _
  rw [extract_join _ _ hks, hfil]

/-- C6: every format produced by the random-format generator contains each of
the five mandatory keys time, status_code, method, path, client_ip exactly
once, at most two additional keys all drawn from the optional pool, at most
seven placeholders in total, and no duplicate keys. -/
theorem c6_random_format_invariants (r : FmtRand) :
    (∀ k ∈ requiredPlaceholders, (extractKeys (generateRandomGlobalLogFormat r)).count k = 1) ∧
    ((extractKeys (generateRandomGlobalLogFormat r)).filter
        (fun k => !(requiredPlaceholders.contains k))).length ≤ 2 ∧
    (∀ k ∈ extractKeys (generateRandomGlobalLogFormat r),
      k ∈ requiredPlaceholders ∨ k ∈ optionalPlaceholders) ∧
    (extractKeys (generateRandomGlobalLogFormat r)).length ≤ 7 ∧
    (extractKeys (generateRandomGlobalLogFormat r)).Nodup := by
  obtain ⟨extra, heq, hsub, hnd, hlen⟩ := addOptLoop_spec r (r.optCountDraw % 3)
  have hcount3 : r.optCountDraw % 3 < 3 := Nat.mod_lt _ (by norm_num)
  have hlen2 : extra.length ≤ 2 := by omega
  have hperm : (extractKeys (generateRandomGlobalLogFormat r)).Perm
      (requiredPlaceholders ++ extra) := by
    rw [extractKeys_generate r]
    exact (shuffleSteps_perm r _).trans (by rw [heq])
  refine ⟨?_, ?_, ?_, ?_, ?_⟩
  · intro k hk
    have hk' : k = "time" ∨ k = "status_code" ∨ k = "method" ∨ k = "path"
        ∨ k = "client_ip" := by
      simpa [requiredPlaceholders] using hk
    rw [hperm.count_eq, List.count_append]
    have hex0 : extra.count k = 0 := by
      rw [List.count_eq_zero]
      intro hkx
      have hko := hsub k hkx
      rcases hk' with rfl | rfl | rfl | rfl | rfl <;> revert hko <;> decide
    have hreq1 : requiredPlaceholders.count k = 1 := by
      rcases hk' with rfl | rfl | rfl | rfl | rfl <;> decide
    omega
  · rw [List.Perm.length_eq (hperm.filter _), List.filter_append]
    rw [show requiredPlaceholders.filter (fun k => !(requiredPlaceholders.contains k)) = []
      from by decide]
    simp only [List.nil_append]
    calc (extra.filter fun k => !(requiredPlaceholders.contains k)).length
        ≤ extra.length := List.length_filter_le _ _
      _ ≤ 2 := hlen2
  · intro k hk
    rcases List.mem_append.1 (hperm.mem_iff.1 hk) with h | h
    · exact Or.inl h
    · exact Or.inr (hsub k h)
  · rw [hperm.length_eq, List.length_append]
    have h5 : requiredPlaceholders.length = 5 := rfl
    omega
  · rw [hperm.nodup_iff, List.nodup_append]
    refine ⟨by decide, hnd, ?_⟩
    intro a ha hax
    have hao := hsub a hax
    have ha' : a = "time" ∨ a = "status_code" ∨ a = "method" ∨ a = "path"
        ∨ a = "client_ip" := by
      simpa [requiredPlaceholders] using ha
    rcases ha' with rfl | rfl | rfl | rfl | rfl <;> revert hao <;> decide
